import Mathlib

/-!
# server-farm: registry, listener lifecycle and observer model

A shallow embedding of `main.go` and `server.go`.

* Go maps are total functions into `Option` (lookup, insert and delete are the
  only map operations the registry performs).
* `uint8` / `uint16` values are natural numbers; the one narrowing conversion of
  the program, `uint16(rand.UintN(2 << 16))`, is `uint16` below.
* `uuid.New()` and `rand.UintN` are inputs: the fresh identity is a parameter
  and the random source is the list of values it will return, in order.
* A send on `updateChan` appends the event to the list of events a step returns.
* Goroutines are step relations: every step is one straight-line block of the
  source between two blocking points.
-/

namespace ServerFarm

/-! ## server.go: data model -/

/-- Source: `type StatusCode = uint8`. -/
abbrev StatusCode := Nat

/-- Source: `type ServerID = uuid.UUID`. -/
abbrev UUID := Nat

/-- Source: `type ServerID = uuid.UUID`. -/
abbrev ServerID := UUID

/-- Source: `type port = uint16`. -/
abbrev port := Nat

/-- Source: `OK StatusCode = iota`. -/
abbrev OK : StatusCode := 0
/-- Source: second constant of the `StatusCode` block. -/
abbrev STARTING : StatusCode := 1
/-- Source: third constant of the `StatusCode` block. -/
abbrev SHUTTINGDOWN : StatusCode := 2
/-- Source: fourth constant of the `StatusCode` block. -/
abbrev DOWN : StatusCode := 3

/-- Source: `type ServerStatus struct`. `UntilHealthCheck` is a `*uint8`; the
value stored here is what the pointer refers to at the time of reading. -/
structure ServerStatus where
  Code : StatusCode
  UntilHealthCheck : Option Nat
  deriving DecidableEq, Repr

/-- Source: `type Server struct`. The `http.Server` handle, the log entry and the
channel are not data of the model: the channel is the event list of each step. -/
structure Server where
  ID : ServerID
  Port : port
  Status : ServerStatus
  deriving DecidableEq, Repr

/-! ## main.go: events and observer entries -/

/-- Source: `type UIUpdateType = uint8`. -/
abbrev UIUpdateType := Nat

/-- Source: `AddServer UIUpdateType = iota`. -/
abbrev AddServer : UIUpdateType := 0
/-- Source: second constant of the `UIUpdateType` block. -/
abbrev RemoveServer : UIUpdateType := 1
/-- Source: third constant of the `UIUpdateType` block. -/
abbrev UpdateServer : UIUpdateType := 2

/-- Source: `type UIUpdate struct` (field `Type` is `Typ` here). -/
structure UIUpdate where
  Typ : UIUpdateType
  ServerID : UUID
  ServerPort : port
  ServerStatus : ServerStatus
  deriving DecidableEq, Repr

/-- Source: `type ServerDetails struct`. -/
structure ServerDetails where
  ID : ServerID
  Port : port
  Status : StatusCode
  deriving DecidableEq, Repr

/-- Errors built with `fmt.Errorf` in `main.go`, and the error value that
`http.Server.Shutdown` may hand back through `Server.Stop`. -/
inductive Err where
  /-- Message "port is already in use". -/
  | portInUse
  /-- Message "no server with id: %v". -/
  | noServer (id : UUID)
  /-- Whatever `http.Server.Shutdown` returned. -/
  | shutdown
  deriving DecidableEq, Repr

/-! ## server.go: NewServer and Stop -/

/-- Source: `NewServer`. `newID` is the value of `uuid.New()`. -/
def NewServer (p : port) (newID : UUID) : Server :=
  { ID := newID, Port := p, Status := { Code := DOWN, UntilHealthCheck := none } }

/-- The event `UIUpdate{Type: t, ServerID: s.ID, ServerPort: s.Port, ServerStatus: s.Status}`
that every send in `server.go` builds. -/
def Server.update (s : Server) (t : UIUpdateType) : UIUpdate :=
  { Typ := t, ServerID := s.ID, ServerPort := s.Port, ServerStatus := s.Status }

/-- Source: `Server.Stop`. Sets `SHUTTINGDOWN`, sends one `UpdateServer` event and
returns what `Shutdown` returns (`shutdownResult`, decided by the http library). -/
def Server.Stop (s : Server) (shutdownResult : Option Err) :
    Server × List UIUpdate × Option Err :=
  let s1 : Server := { s with Status := { s.Status with Code := SHUTTINGDOWN } }
  (s1, [s1.update UpdateServer], shutdownResult)

/-! ## main.go: Manager -/

/-- Source: `type Manager struct`. `UpdateChan` is the event list of each result. -/
structure Manager where
  RunningServers : UUID → Option Server
  UsedPorts : port → Option UUID

/-- Source: `NewManager`: both maps empty. -/
def NewManager : Manager :=
  { RunningServers := fun _ => none, UsedPorts := fun _ => none }

/-- Source: the conversion `uint16(...)` applied to the drawn value; the result
is a `port`. -/
def uint16 (r : Nat) : Nat := r % 2 ^ 16

/-- Source: the bound `2 << 16` passed to `rand.UintN`. -/
def drawBound : Nat := 2 <<< 16

/-- Source: the `for` loop of the port closure in `SpawnServer`. Each element of
`draws` is one value returned by `rand.UintN(2 << 16)`. `none` means the loop has
consumed all the given draws without returning. -/
def drawPort (m : Manager) : List Nat → Option port
  | [] => none
  | r :: rest =>
    let p := uint16 r
    if (m.UsedPorts p).isSome then drawPort m rest else some p

/-- Source: the port closure of `SpawnServer`: the explicit port when one is
given, the result of the draw loop otherwise. -/
def choosePort (m : Manager) (_port : Option port) (draws : List Nat) : Option port :=
  match _port with
  | none => drawPort m draws
  | some p => some p

/-- What one call of `SpawnServer` produces: the returned pair, the Manager when
the call has done its own writes (the launched goroutine has not run yet), the
events the call itself sent, and the server whose `Start` the launched goroutine
runs (with the removal step after it), if one was launched. -/
structure SpawnResult where
  id : Option UUID
  err : Option Err
  manager : Manager
  events : List UIUpdate
  launched : Option Server

/-- Source: `Manager.SpawnServer`. `none` only when the draw loop did not return
within the given draws. -/
def SpawnServer (m : Manager) (_port : Option port) (draws : List Nat) (newID : UUID) :
    Option SpawnResult :=
  match choosePort m _port draws with
  | none => none
  | some p =>
    if (m.UsedPorts p).isSome then
      some { id := none, err := some Err.portInUse, manager := m, events := [],
             launched := none }
    else
      let server := NewServer p newID
      some { id := some server.ID, err := none,
             manager := { RunningServers := Function.update m.RunningServers server.ID (some server),
                          UsedPorts := Function.update m.UsedPorts p (some server.ID) },
             events := [], launched := some server }

/-- Source: the two `delete` calls the goroutine of `SpawnServer` runs after
`server.Start()` has returned. -/
def removeServer (m : Manager) (id : UUID) (p : port) : Manager :=
  { RunningServers := Function.update m.RunningServers id none,
    UsedPorts := Function.update m.UsedPorts p none }

/-- What one call of `StopServer` produces. -/
structure StopResult where
  err : Option Err
  manager : Manager
  events : List UIUpdate

/-- Source: `Manager.StopServer`. The registry holds `*Server`, so the status
written by `Stop` is visible through `RunningServers`. -/
def StopServer (m : Manager) (id : UUID) (shutdownResult : Option Err) : StopResult :=
  match m.RunningServers id with
  | none => { err := some (Err.noServer id), manager := m, events := [] }
  | some server =>
    let r := server.Stop shutdownResult
    { err := r.2.2,
      manager := { m with RunningServers := Function.update m.RunningServers id (some r.1) },
      events := r.2.1 }

/-! ## server.go: the goroutines of one listener -/

/-- Where the goroutine that runs `Server.Start` stands. -/
inductive StartPc where
  /-- The server is constructed and registered; `Start` has not run its first line. -/
  | created
  /-- `STARTING` is set and the `AddServer` send is done; `ScheduleHealthCheck(3)`
  has not run. -/
  | announced
  /-- Blocked in `ListenAndServe`. -/
  | serving
  /-- In the one second sleep between the `DOWN` event and the `RemoveServer` event. -/
  | quiescing
  /-- `Start` has returned. -/
  | returned
  deriving DecidableEq, Repr

/-- Where the goroutine launched by `ScheduleHealthCheck` stands. -/
inductive HealthPc where
  /-- No health-check goroutine has been launched. -/
  | idle
  /-- In the countdown loop, with the captured variable `seconds` at this value. -/
  | counting (seconds : Nat)
  /-- The countdown is cleared and reported; `http.Get` has not returned. -/
  | probing
  /-- The goroutine has returned. -/
  | finished
  deriving DecidableEq, Repr

/-- One listener: the `Server` value shared by its goroutines and their positions. -/
structure Listener where
  srv : Server
  start : StartPc
  health : HealthPc
  deriving DecidableEq, Repr

/-- The listener right after `SpawnServer` has registered `s`. -/
def Listener.init (s : Server) : Listener :=
  { srv := s, start := StartPc.created, health := HealthPc.idle }

/-- Result of `http.Get` in the health-check goroutine. -/
inductive ProbeOutcome where
  /-- `err != nil`. -/
  | transportError
  /-- `err == nil`, with `res.StatusCode`. -/
  | response (status : Nat)
  deriving DecidableEq, Repr

/-- Source: `Server.ScheduleHealthCheck`, the part that runs in the caller:
nothing when a countdown is pending, otherwise `UntilHealthCheck = &seconds` and
the goroutine is launched. -/
def ScheduleHealthCheck (l : Listener) (seconds : Nat) : Listener :=
  if l.srv.Status.UntilHealthCheck.isSome then l
  else
    { l with
      srv := { l.srv with Status := { l.srv.Status with UntilHealthCheck := some seconds } },
      health := HealthPc.counting seconds }

/-- The blocks of code of one listener that run without blocking in between. -/
inductive Step where
  /-- `Start`: set `STARTING`, send `AddServer` (the send blocks until received). -/
  | startBegin
  /-- `Start`: after the send, `ScheduleHealthCheck(3)` and the call of `ListenAndServe`. -/
  | schedule
  /-- `Start`: `ListenAndServe` has returned; set `DOWN`, send `UpdateServer`. -/
  | serveReturn
  /-- `Start`: the sleep is over; send `RemoveServer` and return. -/
  | startFinish
  /-- `Stop`: set `SHUTTINGDOWN`, send `UpdateServer`. -/
  | stop
  /-- Health check: one iteration of `for seconds > 0`. -/
  | tick
  /-- Health check: `UntilHealthCheck = nil`, send `UpdateServer`. -/
  | clear
  /-- Health check: `http.Get` has returned with this outcome. -/
  | probe (o : ProbeOutcome)
  deriving DecidableEq, Repr

/-- One step of a listener: the new state and the events sent, or `none` when the
goroutine concerned is not at that block. `Stop` is reachable through the registry
until `Start` has returned. -/
def step (l : Listener) : Step → Option (Listener × List UIUpdate)
  | Step.startBegin =>
    if l.start = StartPc.created then
      let s1 : Server := { l.srv with Status := { l.srv.Status with Code := STARTING } }
      some ({ l with srv := s1, start := StartPc.announced }, [s1.update AddServer])
    else none
  | Step.schedule =>
    if l.start = StartPc.announced then
      some (ScheduleHealthCheck { l with start := StartPc.serving } 3, [])
    else none
  | Step.serveReturn =>
    if l.start = StartPc.serving then
      let s1 : Server := { l.srv with Status := { l.srv.Status with Code := DOWN } }
      some ({ l with srv := s1, start := StartPc.quiescing }, [s1.update UpdateServer])
    else none
  | Step.startFinish =>
    if l.start = StartPc.quiescing then
      some ({ l with start := StartPc.returned }, [l.srv.update RemoveServer])
    else none
  | Step.stop =>
    if l.start = StartPc.returned then none
    else
      let r := l.srv.Stop none
      some ({ l with srv := r.1 }, r.2.1)
  | Step.tick =>
    match l.health with
    | HealthPc.counting (n + 1) =>
      let s1 : Server := { l.srv with Status := { l.srv.Status with UntilHealthCheck := some n } }
      some ({ l with srv := s1, health := HealthPc.counting n }, [s1.update UpdateServer])
    | _ => none
  | Step.clear =>
    match l.health with
    | HealthPc.counting 0 =>
      let s1 : Server := { l.srv with Status := { l.srv.Status with UntilHealthCheck := none } }
      some ({ l with srv := s1, health := HealthPc.probing }, [s1.update UpdateServer])
    | _ => none
  | Step.probe o =>
    match l.health with
    | HealthPc.probing =>
      match o with
      | ProbeOutcome.transportError => some ({ l with health := HealthPc.finished }, [])
      | ProbeOutcome.response _ =>
        -- `if res.StatusCode != 200 { }` has an empty body: every response falls through
        let s1 : Server := { l.srv with Status := { l.srv.Status with Code := OK } }
        some ({ l with srv := s1, health := HealthPc.finished }, [s1.update UpdateServer])
    | _ => none

/-- Runs the steps in order; the events of all steps, in the order sent. -/
def exec (l : Listener) : List Step → Option (Listener × List UIUpdate)
  | [] => some (l, [])
  | st :: rest =>
    match step l st with
    | none => none
    | some (l1, e1) =>
      match exec l1 rest with
      | none => none
      | some (l2, e2) => some (l2, e1 ++ e2)

/-- As `exec`, every event paired with the step that sent it. -/
def execTagged (l : Listener) : List Step → Option (Listener × List (Step × UIUpdate))
  | [] => some (l, [])
  | st :: rest =>
    match step l st with
    | none => none
    | some (l1, e1) =>
      match execTagged l1 rest with
      | none => none
      | some (l2, e2) => some (l2, e1.map (fun u => (st, u)) ++ e2)

/-- The steps of the health-check goroutine. -/
def Step.isHealth : Step → Bool
  | Step.tick => true
  | Step.clear => true
  | Step.probe _ => true
  | _ => false

/-- The events sent by `Start` and `Stop`, in the order sent: the events of the
health-check goroutine are left out. -/
def startStopEvents (tevs : List (Step × UIUpdate)) : List UIUpdate :=
  (tevs.filter fun te => !te.1.isHealth).map fun te => te.2

/-- What the observer reads of an event: type, identity, port and status code. -/
def brief (u : UIUpdate) : UIUpdateType × UUID × port × StatusCode :=
  (u.Typ, u.ServerID, u.ServerPort, u.ServerStatus.Code)

/-- The registry as a reader finds it when the goroutines of listener `l` have
brought it to state `l`: `RunningServers` holds `*Server`, so a registered entry
under the identity of `l` shows the current content of its `Server`. -/
def Manager.seen (m : Manager) (l : Listener) : Manager :=
  { m with
    RunningServers := fun i =>
      if i = l.srv.ID then (m.RunningServers i).map fun _ => l.srv else m.RunningServers i }

/-- Removes consecutive repetitions. -/
def collapse : List StatusCode → List StatusCode
  | [] => []
  | [a] => [a]
  | a :: b :: rest => if a = b then collapse (b :: rest) else a :: collapse (b :: rest)

/-- The status codes carried by a list of events. -/
def codes (evs : List UIUpdate) : List StatusCode :=
  evs.map fun u => u.ServerStatus.Code

/-- The lifecycle sequence an observer of the channel sees: the status codes the
events carry, in order, consecutive repetitions removed. -/
def lifecycle (evs : List UIUpdate) : List StatusCode :=
  collapse (codes evs)

/-! ## main.go: the observer -/

/-- Source: `type UI struct`; the table is presentation. -/
structure UI where
  serverDetails : List ServerDetails
  deriving DecidableEq, Repr

/-- The `for i, server := range` loop of `GetServerDetails`, from index `i`. -/
def GetServerDetails.loop (id : ServerID) : List ServerDetails → Nat → Option ServerDetails × Nat
  | [], _ => (none, 0)
  | server :: rest, i =>
    if server.ID = id then (some server, i) else GetServerDetails.loop id rest (i + 1)

/-- Source: `UI.GetServerDetails`: first entry with the identity and its index, or `(nil, 0)`. -/
def UI.GetServerDetails (ui : UI) (id : ServerID) : Option ServerDetails × Nat :=
  GetServerDetails.loop id ui.serverDetails 0

/-- Source: the `switch update.Type` of the update consumer in `main`. `none` is a
run-time panic (slice bounds out of range). -/
def applyUpdate (ui : UI) (update : UIUpdate) : Option UI :=
  if update.Typ = AddServer then
    some { serverDetails := ui.serverDetails ++
      [{ ID := update.ServerID, Port := update.ServerPort, Status := update.ServerStatus.Code }] }
  else if update.Typ = RemoveServer then
    match ui.GetServerDetails update.ServerID with
    | (none, _) => some ui
    | (some _, i) =>
      if i + 1 ≤ ui.serverDetails.length then
        some { serverDetails := ui.serverDetails.take i ++ ui.serverDetails.drop (i + 1) }
      else none
  else if update.Typ = UpdateServer then
    match ui.GetServerDetails update.ServerID with
    | (none, _) => some ui
    | (some server, i) =>
      some { serverDetails :=
        ui.serverDetails.set i { server with Status := update.ServerStatus.Code } }
  else some ui

/-- The consumer applied to a sequence of events, in the order received. -/
def applyUpdates (ui : UI) : List UIUpdate → Option UI
  | [] => some ui
  | u :: rest =>
    match applyUpdate ui u with
    | none => none
    | some ui1 => applyUpdates ui1 rest

/-! ## Registry invariant -/

/-- The two maps describe the same set of listeners. -/
def RegistryInv (m : Manager) : Prop :=
  (∀ p id, m.UsedPorts p = some id → ∃ s, m.RunningServers id = some s ∧ s.Port = p) ∧
  (∀ id s, m.RunningServers id = some s → m.UsedPorts s.Port = some id)

/-- First candidate port of the draws that is not a key of `UsedPorts`. -/
def firstFree (m : Manager) (draws : List Nat) : Option port :=
  (draws.map uint16).find? fun p => (m.UsedPorts p).isNone

/-! ## Lifecycle order -/

/-- The order of the lifecycle: `STARTING`, `OK` (up), `SHUTTINGDOWN`, `DOWN`. -/
def lifecycleOrder : List StatusCode := [STARTING, OK, SHUTTINGDOWN, DOWN]

/-- The part of the lifecycle order from state `c` on. -/
def orderFrom (c : StatusCode) : List StatusCode :=
  lifecycleOrder.dropWhile fun x => x != c

/-- A step is timely in state `l` when, if it is `Stop`, the listener is
`STARTING`, `OK` or `SHUTTINGDOWN`, and, if it is a probe response, the listener is
`STARTING`. The source has no such test; every other step is timely. -/
def timely (l : Listener) : Step → Bool
  | Step.stop =>
    decide (l.srv.Status.Code = STARTING ∨ l.srv.Status.Code = OK ∨
      l.srv.Status.Code = SHUTTINGDOWN)
  | Step.probe (ProbeOutcome.response _) => decide (l.srv.Status.Code = STARTING)
  | _ => true

/-- Every step of the execution is timely in the state in which it is taken. -/
def allTimely (l : Listener) : List Step → Bool
  | [] => true
  | st :: rest =>
    timely l st &&
      match step l st with
      | none => true
      | some (l1, _) => allTimely l1 rest

/-! ## Lemmas: port draw -/

theorem drawPort_eq_firstFree (m : Manager) (draws : List Nat) :
    drawPort m draws = firstFree m draws := by
  induction draws with
  | nil => rfl
  | cons r rest ih =>
    unfold firstFree at ih ⊢
    cases hp : m.UsedPorts (uint16 r) <;> simp [drawPort, hp, ih, List.find?]

theorem firstFree_isSome (m : Manager) (draws : List Nat)
    (h : ∃ r ∈ draws, m.UsedPorts (uint16 r) = none) :
    ∃ p, firstFree m draws = some p ∧ m.UsedPorts p = none := by
  obtain ⟨r, hr, hfree⟩ := h
  have hsome : (firstFree m draws).isSome = true := by
    unfold firstFree
    rw [List.find?_isSome]
    exact ⟨uint16 r, List.mem_map.mpr ⟨r, hr, rfl⟩, by simp [hfree]⟩
  obtain ⟨p, hp⟩ := Option.isSome_iff_exists.mp hsome
  refine ⟨p, hp, ?_⟩
  have := List.find?_some hp
  simpa using this

/-! ## Theorems: registry -/

/-- C1: for every Manager and every port that is a key of `UsedPorts`,
`SpawnServer` with that explicit port returns the port-in-use error and no
identity, leaves the Manager as it was, sends no event and launches no goroutine;
and after a successful `SpawnServer` with an explicit port, a second call with the
same port fails in that way. -/
theorem spawn_explicit_port_in_use :
    (∀ (m : Manager) (p : port) (draws : List Nat) (newID : UUID),
      (m.UsedPorts p).isSome = true →
      ∃ r, SpawnServer m (some p) draws newID = some r ∧ r.err = some Err.portInUse ∧
        r.id = none ∧ r.manager = m ∧ r.events = [] ∧ r.launched = none) ∧
    (∀ (m : Manager) (p : port) (d1 d2 : List Nat) (id1 id2 : UUID) (r1 : SpawnResult),
      SpawnServer m (some p) d1 id1 = some r1 → r1.err = none →
      ∃ r2, SpawnServer r1.manager (some p) d2 id2 = some r2 ∧
        r2.err = some Err.portInUse ∧ r2.id = none ∧ r2.manager = r1.manager ∧
        r2.events = [] ∧ r2.launched = none) := by
  have key : ∀ (m : Manager) (p : port) (draws : List Nat) (newID : UUID),
      (m.UsedPorts p).isSome = true →
      ∃ r, SpawnServer m (some p) draws newID = some r ∧ r.err = some Err.portInUse ∧
        r.id = none ∧ r.manager = m ∧ r.events = [] ∧ r.launched = none := by
    intro m p draws newID h
    simp [SpawnServer, choosePort, h]
  refine ⟨key, ?_⟩
  intro m p d1 d2 id1 id2 r1 h1 herr
  apply key
  simp only [SpawnServer, choosePort] at h1
  by_cases hu : (m.UsedPorts p).isSome = true
  · rw [if_pos hu] at h1
    cases h1
    simp at herr
  · rw [if_neg hu] at h1
    cases h1
    simp [NewServer]

/-- Witness for C1: on the empty Manager, `start 9001` succeeds and a second
`start 9001` fails with the port-in-use error, changing nothing. -/
theorem spawn_explicit_port_in_use_witness :
    ∃ r1, SpawnServer NewManager (some 9001) [] 1 = some r1 ∧ r1.err = none ∧
      ∃ r2, SpawnServer r1.manager (some 9001) [] 2 = some r2 ∧
        r2.err = some Err.portInUse ∧ r2.id = none ∧ r2.manager = r1.manager ∧
        r2.events = [] ∧ r2.launched = none :=
  ⟨_, rfl, rfl, spawn_explicit_port_in_use.2 NewManager 9001 [] [] 1 2 _ rfl rfl⟩

/-- C2: for every Manager and every identity that is not a key of
`RunningServers`, `StopServer` returns the not-found error, sends no event, and
leaves the Manager (both maps, hence every registered listener and its status)
as it was. -/
theorem stop_unknown_identity (m : Manager) (id : UUID) (shutdownResult : Option Err)
    (h : m.RunningServers id = none) :
    (StopServer m id shutdownResult).err = some (Err.noServer id) ∧
    (StopServer m id shutdownResult).events = [] ∧
    (StopServer m id shutdownResult).manager = m ∧
    (∀ id1, (StopServer m id shutdownResult).manager.RunningServers id1 = m.RunningServers id1) ∧
    (∀ p, (StopServer m id shutdownResult).manager.UsedPorts p = m.UsedPorts p) := by
  simp [StopServer, h]

/-- Witness for C2: one listener is registered, under identity 1 on port 9001;
stopping identity 2 is answered with the not-found error and nothing is sent. -/
theorem stop_unknown_identity_witness :
    (StopServer
      { RunningServers := fun i => if i = 1 then some (NewServer 9001 1) else none,
        UsedPorts := fun q => if q = 9001 then some 1 else none } 2 none).err
      = some (Err.noServer 2) ∧
    (StopServer
      { RunningServers := fun i => if i = 1 then some (NewServer 9001 1) else none,
        UsedPorts := fun q => if q = 9001 then some 1 else none } 2 none).events = [] :=
  have h := stop_unknown_identity
    { RunningServers := fun i => if i = 1 then some (NewServer 9001 1) else none,
      UsedPorts := fun q => if q = 9001 then some 1 else none } 2 none (by decide)
  ⟨h.1, h.2.1⟩

/-- C3: for every Manager and every sequence of draws with at least one
candidate that is not a key of `UsedPorts`, `SpawnServer` without explicit port
returns (the loop ends within those draws), returns no error, and registers the new
listener on the first drawn candidate that is not a key of `UsedPorts`; hence, the
port of every registered listener being a key of `UsedPorts` (half of the registry
invariant), that port differs from the port of every registered listener. -/
theorem spawn_random_port_first_free (m : Manager) (draws : List Nat) (newID : UUID)
    (h : ∃ r ∈ draws, m.UsedPorts (uint16 r) = none) :
    ∃ p res, firstFree m draws = some p ∧
      SpawnServer m none draws newID = some res ∧
      res.err = none ∧ res.id = some newID ∧
      res.launched = some (NewServer p newID) ∧
      res.manager.RunningServers newID = some (NewServer p newID) ∧
      res.manager.UsedPorts p = some newID ∧
      m.UsedPorts p = none ∧
      ((∀ id s, m.RunningServers id = some s → (m.UsedPorts s.Port).isSome = true) →
        ∀ id s, m.RunningServers id = some s → s.Port ≠ p) := by
  obtain ⟨p, hp, hfree⟩ := firstFree_isSome m draws h
  have hdraw : drawPort m draws = some p := by rw [drawPort_eq_firstFree, hp]
  refine ⟨p, { id := some newID, err := none,
                manager := { RunningServers :=
                               Function.update m.RunningServers newID (some (NewServer p newID)),
                             UsedPorts := Function.update m.UsedPorts p (some newID) },
                events := [], launched := some (NewServer p newID) }, hp, ?_, rfl, rfl, rfl,
    ?_, ?_, hfree, ?_⟩
  · simp [SpawnServer, choosePort, hdraw, hfree, NewServer]
  · simp
  · simp
  · intro hkeys id s hs hport
    have := hkeys id s hs
    rw [hport, hfree] at this
    cases this

/-- Witness for C3: listeners 1 and 2 hold ports 5 and 6, the draws are 65541, 6,
70000, 9; the first two candidates (5 and 6) are taken and the new listener gets
port 4464, which is the port of neither registered listener. -/
theorem spawn_random_port_first_free_witness :
    ∃ p res, firstFree
        { RunningServers := fun i => if i = 1 then some (NewServer 5 1)
                                     else if i = 2 then some (NewServer 6 2) else none,
          UsedPorts := fun q => if q = 5 then some 1 else if q = 6 then some 2 else none }
        [65541, 6, 70000, 9] = some p ∧ p = 4464 ∧ res.id = some 3 ∧
      SpawnServer
        { RunningServers := fun i => if i = 1 then some (NewServer 5 1)
                                     else if i = 2 then some (NewServer 6 2) else none,
          UsedPorts := fun q => if q = 5 then some 1 else if q = 6 then some 2 else none }
        none [65541, 6, 70000, 9] 3 = some res ∧
      (NewServer 5 1).Port ≠ p ∧ (NewServer 6 2).Port ≠ p := by
  obtain ⟨p, res, h1, h2, _, h4, _, _, _, _, h9⟩ := spawn_random_port_first_free
    { RunningServers := fun i => if i = 1 then some (NewServer 5 1)
                                 else if i = 2 then some (NewServer 6 2) else none,
      UsedPorts := fun q => if q = 5 then some 1 else if q = 6 then some 2 else none }
    [65541, 6, 70000, 9] 3 ⟨70000, by simp, by decide⟩
  have hkeys : ∀ (id : UUID) (s : Server),
      (if id = 1 then some (NewServer 5 1)
        else if id = 2 then some (NewServer 6 2) else none) = some s →
      (if s.Port = 5 then some 1 else if s.Port = 6 then some 2 else none : Option UUID).isSome
        = true := by
    intro id s hs
    split at hs
    · cases hs; rfl
    · split at hs
      · cases hs; rfl
      · cases hs
  refine ⟨p, res, h1, ?_, h4, h2, h9 hkeys 1 _ rfl, h9 hkeys 2 _ rfl⟩
  have h5 : firstFree
        { RunningServers := fun i => if i = 1 then some (NewServer 5 1)
                                     else if i = 2 then some (NewServer 6 2) else none,
          UsedPorts := fun q => if q = 5 then some 1 else if q = 6 then some 2 else none }
        [65541, 6, 70000, 9] = some 4464 := by decide
  rw [h5] at h1
  exact (Option.some.inj h1).symm

/-! ## Lemmas: registry invariant -/

theorem RegistryInv_spawn (m : Manager) (p : port) (newID : UUID) (hinv : RegistryInv m)
    (hfresh : m.RunningServers newID = none) (hfree : m.UsedPorts p = none) :
    RegistryInv
      { RunningServers := Function.update m.RunningServers newID (some (NewServer p newID)),
        UsedPorts := Function.update m.UsedPorts p (some newID) } := by
  constructor
  · intro q id hq
    by_cases hqp : q = p
    · subst hqp
      simp only [Function.update_same, Option.some.injEq] at hq
      subst hq
      exact ⟨NewServer q newID, by simp, rfl⟩
    · simp only [Function.update_noteq hqp] at hq
      obtain ⟨s, hs, hport⟩ := hinv.1 q id hq
      have hne : id ≠ newID := by
        rintro rfl
        rw [hfresh] at hs
        cases hs
      exact ⟨s, by simp [Function.update_noteq hne, hs], hport⟩
  · intro id s hs
    by_cases hid : id = newID
    · subst hid
      simp only [Function.update_same, Option.some.injEq] at hs
      subst hs
      simp [NewServer]
    · simp only [Function.update_noteq hid] at hs
      have hup := hinv.2 id s hs
      have hne : s.Port ≠ p := by
        intro hsp
        rw [hsp, hfree] at hup
        cases hup
      simp [Function.update_noteq hne, hup]

theorem RegistryInv_stop (m : Manager) (id : UUID) (shutdownResult : Option Err)
    (hinv : RegistryInv m) : RegistryInv (StopServer m id shutdownResult).manager := by
  unfold StopServer
  cases hlook : m.RunningServers id with
  | none => exact hinv
  | some server =>
    constructor
    · intro q id1 hq
      obtain ⟨s, hs, hport⟩ := hinv.1 q id1 hq
      by_cases hid : id1 = id
      · subst hid
        rw [hlook] at hs
        cases hs
        exact ⟨(server.Stop shutdownResult).1, by simp, hport⟩
      · exact ⟨s, by simp [Function.update_noteq hid, hs], hport⟩
    · intro id1 s hs
      by_cases hid : id1 = id
      · subst hid
        simp only [Server.Stop, Function.update_same, Option.some.injEq] at hs
        subst hs
        exact hinv.2 id1 server hlook
      · simp only [Function.update_noteq hid] at hs
        exact hinv.2 id1 s hs

theorem RegistryInv_remove (m : Manager) (id : UUID) (p : port) (s : Server)
    (hinv : RegistryInv m) (hs : m.RunningServers id = some s) (hport : s.Port = p) :
    RegistryInv (removeServer m id p) := by
  unfold removeServer
  constructor
  · intro q id1 hq
    have hqp : q ≠ p := by
      rintro rfl
      simp at hq
    simp only [Function.update_noteq hqp] at hq
    obtain ⟨s1, hs1, hport1⟩ := hinv.1 q id1 hq
    have hid : id1 ≠ id := by
      rintro rfl
      rw [hs] at hs1
      cases hs1
      exact hqp (hport1.symm.trans hport)
    exact ⟨s1, by simp [Function.update_noteq hid, hs1], hport1⟩
  · intro id1 s1 hs1
    have hid : id1 ≠ id := by
      rintro rfl
      simp at hs1
    simp only [Function.update_noteq hid] at hs1
    have hup := hinv.2 id1 s1 hs1
    have hne : s1.Port ≠ p := by
      intro hsp
      have h2 := hinv.2 id s hs
      rw [hport, ← hsp, hup] at h2
      exact hid (Option.some.inj h2)
    simp [Function.update_noteq hne, hup]

/-- C4: the registry invariant holds for the Manager of `NewManager`; under it no
two registered listeners share a port; and it is preserved by `SpawnServer`
(explicit or drawn port; on success the new identity is fresh; on failure nothing
is required of it), by `StopServer`, and by the removal step of a registered
listener (its identity and its port). -/
theorem registry_invariant :
    RegistryInv NewManager ∧
    (∀ m : Manager, RegistryInv m →
      ∀ id1 id2 s1 s2, m.RunningServers id1 = some s1 → m.RunningServers id2 = some s2 →
        s1.Port = s2.Port → id1 = id2) ∧
    (∀ (m : Manager) (_port : Option port) (draws : List Nat) (newID : UUID) (r : SpawnResult),
      RegistryInv m → SpawnServer m _port draws newID = some r →
      (r.err = none → m.RunningServers newID = none) → RegistryInv r.manager) ∧
    (∀ (m : Manager) (id : UUID) (shutdownResult : Option Err),
      RegistryInv m → RegistryInv (StopServer m id shutdownResult).manager) ∧
    (∀ (m : Manager) (id : UUID) (p : port) (s : Server),
      RegistryInv m → m.RunningServers id = some s → s.Port = p →
      RegistryInv (removeServer m id p)) := by
  refine ⟨?_, ?_, ?_, RegistryInv_stop, RegistryInv_remove⟩
  · constructor
    · intro p id h
      cases h
    · intro id s h
      cases h
  · intro m hinv id1 id2 s1 s2 h1 h2 hport
    have a := hinv.2 id1 s1 h1
    have b := hinv.2 id2 s2 h2
    rw [hport, b] at a
    exact (Option.some.inj a).symm
  · intro m _port draws newID r hinv hr hfresh
    simp only [SpawnServer] at hr
    cases hc : choosePort m _port draws with
    | none => rw [hc] at hr; cases hr
    | some p =>
      rw [hc] at hr
      dsimp only at hr
      by_cases hu : (m.UsedPorts p).isSome = true
      · rw [if_pos hu] at hr
        cases hr
        exact hinv
      · rw [if_neg hu] at hr
        cases hr
        have hfree : m.UsedPorts p = none := by
          cases h : m.UsedPorts p with
          | none => rfl
          | some v => simp [h] at hu
        exact RegistryInv_spawn m p newID hinv (hfresh rfl) hfree

/-- Witness for C4: `start 9001` on the empty Manager, a second `start 9001`
(which fails), `StopServer` of the listener, then its removal step: the invariant
holds after each. -/
theorem registry_invariant_witness :
    ∃ r1, SpawnServer NewManager (some 9001) [] 1 = some r1 ∧ RegistryInv r1.manager ∧
      (∃ r2, SpawnServer r1.manager (some 9001) [] 2 = some r2 ∧ RegistryInv r2.manager) ∧
      RegistryInv (StopServer r1.manager 1 none).manager ∧
      RegistryInv (removeServer (StopServer r1.manager 1 none).manager 1 9001) := by
  have hinv1 := registry_invariant.2.2.1 NewManager (some 9001) [] 1 _ registry_invariant.1 rfl
    (fun _ => rfl)
  have hstop := registry_invariant.2.2.2.1 _ 1 none hinv1
  exact ⟨_, rfl, hinv1,
    ⟨_, rfl, registry_invariant.2.2.1 _ (some 9001) [] 2 _ hinv1 rfl (fun h => by cases h)⟩,
    hstop,
    registry_invariant.2.2.2.2 _ 1 9001 _ hstop rfl rfl⟩

/-! ## Theorems: state at registration -/

/-- C7 as stated fails: it is not the case that the listener registered by a
successful `SpawnServer` has status `STARTING` when the call returns
(`start 9001` on the empty Manager registers a listener with status `DOWN`). -/
theorem spawn_registers_starting_fails :
    ¬ ∀ (m : Manager) (_port : Option port) (draws : List Nat) (newID : UUID)
        (r : SpawnResult) (id : UUID),
        SpawnServer m _port draws newID = some r → r.id = some id →
        ∃ s, r.manager.RunningServers id = some s ∧ s.Status.Code = STARTING := by
  intro h
  obtain ⟨s, hs, hcode⟩ := h NewManager (some 9001) [] 1 _ 1 rfl rfl
  simp [NewServer] at hs
  subst hs
  simp at hcode

/-! ## Theorems: port draw -/

/-- C10: the bound of the draw is 131072; for every draw `r` below it the
candidate `uint16 r` is `r mod 65536`, a 16-bit value; and every 16-bit value `p`
is the candidate of exactly two draws, `p` and `p + 65536`. -/
theorem draw_covers_port_range :
    drawBound = 131072 ∧
    (∀ r : Nat, r < drawBound → uint16 r = r % 65536 ∧ uint16 r < 65536) ∧
    (∀ p : Nat, p < 65536 →
      (Finset.range drawBound).filter (fun r => uint16 r = p) = {p, p + 65536} ∧
      ((Finset.range drawBound).filter (fun r => uint16 r = p)).card = 2) := by
  have hb : drawBound = 131072 := by decide
  have hu : ∀ r : Nat, uint16 r = r % 65536 := fun r => rfl
  refine ⟨hb, ?_, ?_⟩
  · intro r _
    rw [hu]
    omega
  · intro p hp
    have hset : (Finset.range drawBound).filter (fun r => uint16 r = p) = {p, p + 65536} := by
      ext r
      simp only [Finset.mem_filter, Finset.mem_range, Finset.mem_insert, Finset.mem_singleton,
        hu, hb]
      omega
    refine ⟨hset, ?_⟩
    rw [hset, Finset.card_pair]
    omega

/-- Witness for C10: port 0 is drawn by 0 and 65536, port 65535 by 65535 and 131071. -/
theorem draw_covers_port_range_witness :
    (Finset.range drawBound).filter (fun r => uint16 r = 0) = {0, 0 + 65536} ∧
    (Finset.range drawBound).filter (fun r => uint16 r = 65535) = {65535, 65535 + 65536} ∧
    uint16 131071 = 131071 % 65536 :=
  ⟨(draw_covers_port_range.2.2 0 (by decide)).1,
   (draw_covers_port_range.2.2 65535 (by decide)).1,
   (draw_covers_port_range.2.1 131071 (by decide)).1⟩

/-! ## Lemmas: observer -/

theorem GetServerDetails_loop_absent (id : ServerID) (l : List ServerDetails) (i : Nat)
    (h : ∀ d ∈ l, d.ID ≠ id) : GetServerDetails.loop id l i = (none, 0) := by
  induction l generalizing i with
  | nil => rfl
  | cons d rest ih =>
    have hd : d.ID ≠ id := h d (List.mem_cons_self _ _)
    simp only [GetServerDetails.loop, if_neg hd]
    exact ih (i + 1) (fun e he => h e (List.mem_cons_of_mem _ he))

theorem GetServerDetails_loop_last (id : ServerID) (l : List ServerDetails) (e : ServerDetails)
    (i : Nat) (h : ∀ d ∈ l, d.ID ≠ id) (he : e.ID = id) :
    GetServerDetails.loop id (l ++ [e]) i = (some e, i + l.length) := by
  induction l generalizing i with
  | nil => simp [GetServerDetails.loop, he]
  | cons d rest ih =>
    have hd : d.ID ≠ id := h d (List.mem_cons_self _ _)
    have hrec := ih (i + 1) (fun e he => h e (List.mem_cons_of_mem _ he))
    rw [List.cons_append, GetServerDetails.loop, if_neg hd, hrec, List.length_cons]
    congr 1
    omega

theorem applyUpdate_add (ui : UI) (id : UUID) (p : port) (st : ServerStatus) :
    applyUpdate ui { Typ := AddServer, ServerID := id, ServerPort := p, ServerStatus := st } =
      some { serverDetails := ui.serverDetails ++ [{ ID := id, Port := p, Status := st.Code }] } := by
  simp [applyUpdate]

theorem applyUpdate_update_last (l : List ServerDetails) (id : UUID) (p q : port)
    (c : StatusCode) (st : ServerStatus) (h : ∀ d ∈ l, d.ID ≠ id) :
    applyUpdate { serverDetails := l ++ [{ ID := id, Port := p, Status := c }] }
        { Typ := UpdateServer, ServerID := id, ServerPort := q, ServerStatus := st } =
      some { serverDetails := l ++ [{ ID := id, Port := p, Status := st.Code }] } := by
  have hl := GetServerDetails_loop_last id l { ID := id, Port := p, Status := c } 0 h rfl
  simp [applyUpdate, UI.GetServerDetails, hl]

theorem applyUpdate_remove_last (l : List ServerDetails) (id : UUID) (p q : port)
    (c : StatusCode) (st : ServerStatus) (h : ∀ d ∈ l, d.ID ≠ id) :
    applyUpdate { serverDetails := l ++ [{ ID := id, Port := p, Status := c }] }
        { Typ := RemoveServer, ServerID := id, ServerPort := q, ServerStatus := st } =
      some { serverDetails := l } := by
  have hl := GetServerDetails_loop_last id l { ID := id, Port := p, Status := c } 0 h rfl
  simp [applyUpdate, UI.GetServerDetails, hl]

/-! ## Theorems: observer -/

/-- C8: for every observer model and every `RemoveServer` or `UpdateServer` event
whose identity matches no entry, `GetServerDetails` returns `(nil, 0)` and applying
the event does not panic and returns the model unchanged (entry 0 included). -/
theorem absent_identity_leaves_model (ui : UI) (u : UIUpdate)
    (hT : u.Typ = RemoveServer ∨ u.Typ = UpdateServer)
    (habs : ∀ d ∈ ui.serverDetails, d.ID ≠ u.ServerID) :
    ui.GetServerDetails u.ServerID = (none, 0) ∧ applyUpdate ui u = some ui := by
  have hg : ui.GetServerDetails u.ServerID = (none, 0) :=
    GetServerDetails_loop_absent u.ServerID ui.serverDetails 0 habs
  refine ⟨hg, ?_⟩
  rcases hT with h | h
  · simp [applyUpdate, h, hg]
  · simp [applyUpdate, h, hg]

/-- Witness for C8: a model with two entries (identities 1 and 2) and a
`RemoveServer` event for identity 7: the entry at index 0 stays. -/
theorem absent_identity_leaves_model_witness :
    applyUpdate
      { serverDetails := [{ ID := 1, Port := 9001, Status := OK },
                          { ID := 2, Port := 9002, Status := STARTING }] }
      { Typ := RemoveServer, ServerID := 7, ServerPort := 9007,
        ServerStatus := { Code := DOWN, UntilHealthCheck := none } } =
    some { serverDetails := [{ ID := 1, Port := 9001, Status := OK },
                             { ID := 2, Port := 9002, Status := STARTING }] } :=
  (absent_identity_leaves_model
    { serverDetails := [{ ID := 1, Port := 9001, Status := OK },
                        { ID := 2, Port := 9002, Status := STARTING }] }
    { Typ := RemoveServer, ServerID := 7, ServerPort := 9007,
      ServerStatus := { Code := DOWN, UntilHealthCheck := none } }
    (Or.inl rfl) (by decide)).2

/-! ## Theorems: health check -/

/-- C6 at a response whose status is not 200. A listener on port 8080 whose serve
loop returns at once (the port is bound by another program) is `DOWN` and removed
when its countdown ends; the probe is then answered with status 404, and the step
sets the status to `OK` and sends one `UpdateServer` event carrying `OK`, exactly as
for status 200. Only a transport error leaves the status unchanged and sends
nothing. -/
theorem probe_not_ok_sets_ok :
    ∃ l0 evs0,
      exec (Listener.init (NewServer 8080 1))
        [Step.startBegin, Step.schedule, Step.serveReturn, Step.startFinish, Step.tick,
         Step.tick, Step.tick, Step.clear] = some (l0, evs0) ∧
      l0.srv.Status = { Code := DOWN, UntilHealthCheck := none } ∧
      l0.health = HealthPc.probing ∧
      step l0 (Step.probe (ProbeOutcome.response 404)) =
        some ({ l0 with srv := { ID := 1, Port := 8080,
                                 Status := { Code := OK, UntilHealthCheck := none } },
                        health := HealthPc.finished },
              [{ Typ := UpdateServer, ServerID := 1, ServerPort := 8080,
                 ServerStatus := { Code := OK, UntilHealthCheck := none } }]) ∧
      step l0 (Step.probe (ProbeOutcome.response 404)) =
        step l0 (Step.probe (ProbeOutcome.response 200)) ∧
      step l0 (Step.probe ProbeOutcome.transportError) =
        some ({ l0 with health := HealthPc.finished }, []) := by
  refine ⟨_, _, rfl, ?_, ?_, ?_, ?_, ?_⟩ <;> decide

/-! ## Lemmas: lifecycle -/

/-- What a step that is taken does to the positions, the status code and the channel. -/
theorem step_inv (l l1 : Listener) (st : Step) (e1 : List UIUpdate)
    (h : step l st = some (l1, e1)) :
    match st with
    | Step.startBegin =>
      l.start = StartPc.created ∧ l1.start = StartPc.announced ∧
        l1.srv.Status.Code = STARTING ∧ codes e1 = [STARTING]
    | Step.schedule =>
      l.start = StartPc.announced ∧ l1.start = StartPc.serving ∧
        l1.srv.Status.Code = l.srv.Status.Code ∧ codes e1 = []
    | Step.serveReturn =>
      l.start = StartPc.serving ∧ l1.start = StartPc.quiescing ∧
        l1.srv.Status.Code = DOWN ∧ codes e1 = [DOWN]
    | Step.startFinish =>
      l.start = StartPc.quiescing ∧ l1.start = StartPc.returned ∧
        l1.srv.Status.Code = l.srv.Status.Code ∧ codes e1 = [l.srv.Status.Code]
    | Step.stop =>
      l1.start = l.start ∧ l1.health = l.health ∧
        l1.srv.Status.Code = SHUTTINGDOWN ∧ codes e1 = [SHUTTINGDOWN]
    | Step.tick =>
      l.health ≠ HealthPc.idle ∧ l1.start = l.start ∧
        l1.srv.Status.Code = l.srv.Status.Code ∧ codes e1 = [l.srv.Status.Code]
    | Step.clear =>
      l.health ≠ HealthPc.idle ∧ l1.start = l.start ∧
        l1.srv.Status.Code = l.srv.Status.Code ∧ codes e1 = [l.srv.Status.Code]
    | Step.probe ProbeOutcome.transportError =>
      l.health ≠ HealthPc.idle ∧ l1.start = l.start ∧
        l1.srv.Status.Code = l.srv.Status.Code ∧ codes e1 = []
    | Step.probe (ProbeOutcome.response _) =>
      l.health ≠ HealthPc.idle ∧ l1.start = l.start ∧
        l1.srv.Status.Code = OK ∧ codes e1 = [OK] := by
  cases st with
  | startBegin =>
    simp only [step] at h
    split at h
    · rename_i hc
      simp only [Option.some.injEq, Prod.mk.injEq] at h
      obtain ⟨h1, h2⟩ := h
      subst h1 h2
      exact ⟨hc, rfl, rfl, rfl⟩
    · cases h
  | schedule =>
    simp only [step] at h
    split at h
    · rename_i hc
      simp only [Option.some.injEq, Prod.mk.injEq] at h
      obtain ⟨h1, h2⟩ := h
      subst h1 h2
      refine ⟨hc, ?_, ?_, rfl⟩
      · unfold ScheduleHealthCheck; split <;> rfl
      · unfold ScheduleHealthCheck; split <;> rfl
    · cases h
  | serveReturn =>
    simp only [step] at h
    split at h
    · rename_i hc
      simp only [Option.some.injEq, Prod.mk.injEq] at h
      obtain ⟨h1, h2⟩ := h
      subst h1 h2
      exact ⟨hc, rfl, rfl, rfl⟩
    · cases h
  | startFinish =>
    simp only [step] at h
    split at h
    · rename_i hc
      simp only [Option.some.injEq, Prod.mk.injEq] at h
      obtain ⟨h1, h2⟩ := h
      subst h1 h2
      exact ⟨hc, rfl, rfl, rfl⟩
    · cases h
  | stop =>
    simp only [step] at h
    split at h
    · cases h
    · simp only [Option.some.injEq, Prod.mk.injEq] at h
      obtain ⟨h1, h2⟩ := h
      subst h1 h2
      exact ⟨rfl, rfl, rfl, rfl⟩
  | tick =>
    simp only [step] at h
    split at h
    · rename_i n hc
      simp only [Option.some.injEq, Prod.mk.injEq] at h
      obtain ⟨h1, h2⟩ := h
      subst h1 h2
      exact ⟨by rw [hc]; simp, rfl, rfl, rfl⟩
    · cases h
  | clear =>
    simp only [step] at h
    split at h
    · rename_i hc
      simp only [Option.some.injEq, Prod.mk.injEq] at h
      obtain ⟨h1, h2⟩ := h
      subst h1 h2
      exact ⟨by rw [hc]; simp, rfl, rfl, rfl⟩
    · cases h
  | probe o =>
    simp only [step] at h
    split at h
    · rename_i hc
      cases o with
      | transportError =>
        simp only [Option.some.injEq, Prod.mk.injEq] at h
        obtain ⟨h1, h2⟩ := h
        subst h1 h2
        exact ⟨by rw [hc]; simp, rfl, rfl, rfl⟩
      | response n =>
        simp only [Option.some.injEq, Prod.mk.injEq] at h
        obtain ⟨h1, h2⟩ := h
        subst h1 h2
        exact ⟨by rw [hc]; simp, rfl, rfl, rfl⟩
    · cases h

theorem exec_cons_inv (l l2 : Listener) (st : Step) (rest : List Step) (evs : List UIUpdate)
    (h : exec l (st :: rest) = some (l2, evs)) :
    ∃ l1 e1 e2, step l st = some (l1, e1) ∧ exec l1 rest = some (l2, e2) ∧ evs = e1 ++ e2 := by
  simp only [exec] at h
  cases hs : step l st with
  | none => rw [hs] at h; cases h
  | some r1 =>
    obtain ⟨l1, e1⟩ := r1
    rw [hs] at h
    dsimp only at h
    cases he : exec l1 rest with
    | none => rw [he] at h; cases h
    | some r2 =>
      obtain ⟨l2', e2⟩ := r2
      rw [he] at h
      simp only [Option.some.injEq, Prod.mk.injEq] at h
      obtain ⟨h1, h2⟩ := h
      subst h1 h2
      exact ⟨l1, e1, e2, rfl, he, rfl⟩

theorem codes_append (e1 e2 : List UIUpdate) : codes (e1 ++ e2) = codes e1 ++ codes e2 := by
  simp [codes]

theorem collapse_same (c : StatusCode) (rest : List StatusCode) :
    collapse (c :: c :: rest) = collapse (c :: rest) := by
  simp [collapse]

theorem collapse_ne (c d : StatusCode) (rest : List StatusCode) (h : c ≠ d) :
    collapse (c :: d :: rest) = c :: collapse (d :: rest) := by
  simp [collapse, h]

theorem collapse_sublist (xs : List StatusCode) : List.Sublist (collapse xs) xs := by
  induction xs with
  | nil => exact List.Sublist.refl _
  | cons a rest ih =>
    cases rest with
    | nil => exact List.Sublist.refl _
    | cons b r =>
      by_cases hab : a = b
      · subst hab
        rw [collapse_same]
        exact ih.trans (List.sublist_cons_self _ _)
      · rw [collapse_ne _ _ _ hab]
        exact ih.cons₂ a

theorem count_collapse_cons (a s : StatusCode) (rest : List StatusCode) (h : a ≠ s) :
    (collapse (a :: rest)).count s = (collapse rest).count s := by
  cases rest with
  | nil => simp [collapse, List.count_cons, h]
  | cons b r =>
    by_cases hab : a = b
    · subst hab
      rw [collapse_same]
    · rw [collapse_ne _ _ _ hab, List.count_cons_of_ne (Ne.symm h)]

/-- Once `Start` has run its first block, no later event carries `STARTING` after
an event with another code. -/
theorem starting_once_after_begin (steps : List Step) :
    ∀ (l l2 : Listener) (evs : List UIUpdate), l.start ≠ StartPc.created →
      exec l steps = some (l2, evs) →
      (l.srv.Status.Code = STARTING → (collapse (STARTING :: codes evs)).count STARTING ≤ 1) ∧
      (l.srv.Status.Code ≠ STARTING → STARTING ∉ codes evs) := by
  induction steps with
  | nil =>
    intro l l2 evs _ h
    simp only [exec, Option.some.injEq, Prod.mk.injEq] at h
    obtain ⟨_, h2⟩ := h
    subst h2
    exact ⟨fun _ => by simp [codes, collapse], fun _ => by simp [codes]⟩
  | cons st rest ih =>
    intro l l2 evs hstart h
    obtain ⟨l1, e1, e2, hs, he, hevs⟩ := exec_cons_inv l l2 st rest evs h
    subst hevs
    have hinv := step_inv l l1 st e1 hs
    -- the facts every step shares
    have key : l1.start ≠ StartPc.created ∧
        ((codes e1 = [] ∧ l1.srv.Status.Code = l.srv.Status.Code) ∨
          codes e1 = [l1.srv.Status.Code]) ∧
        (l1.srv.Status.Code = STARTING → l.srv.Status.Code = STARTING) := by
      cases st with
      | startBegin => exact absurd hinv.1 hstart
      | schedule =>
        obtain ⟨_, h2, h3, h4⟩ := hinv
        exact ⟨by rw [h2]; simp, Or.inl ⟨h4, h3⟩, fun hc => by rw [← h3]; exact hc⟩
      | serveReturn =>
        obtain ⟨_, h2, h3, h4⟩ := hinv
        exact ⟨by rw [h2]; simp, Or.inr (by rw [h4, h3]), fun hc => by rw [h3] at hc; cases hc⟩
      | startFinish =>
        obtain ⟨_, h2, h3, h4⟩ := hinv
        exact ⟨by rw [h2]; simp, Or.inr (by rw [h4, h3]), fun hc => by rw [← h3]; exact hc⟩
      | stop =>
        obtain ⟨h1, _, h3, h4⟩ := hinv
        exact ⟨by rw [h1]; exact hstart, Or.inr (by rw [h4, h3]),
          fun hc => by rw [h3] at hc; cases hc⟩
      | tick =>
        obtain ⟨_, h2, h3, h4⟩ := hinv
        exact ⟨by rw [h2]; exact hstart, Or.inr (by rw [h4, h3]),
          fun hc => by rw [← h3]; exact hc⟩
      | clear =>
        obtain ⟨_, h2, h3, h4⟩ := hinv
        exact ⟨by rw [h2]; exact hstart, Or.inr (by rw [h4, h3]),
          fun hc => by rw [← h3]; exact hc⟩
      | probe o =>
        cases o with
        | transportError =>
          obtain ⟨_, h2, h3, h4⟩ := hinv
          exact ⟨by rw [h2]; exact hstart, Or.inl ⟨h4, h3⟩, fun hc => by rw [← h3]; exact hc⟩
        | response n =>
          obtain ⟨_, h2, h3, h4⟩ := hinv
          exact ⟨by rw [h2]; exact hstart, Or.inr (by rw [h4, h3]),
            fun hc => by rw [h3] at hc; cases hc⟩
    obtain ⟨hstart1, hshape, hback⟩ := key
    obtain ⟨ihS, ihN⟩ := ih l1 l2 e2 hstart1 he
    rw [codes_append]
    constructor
    · intro hc
      rcases hshape with ⟨h0, hsame⟩ | h1
      · rw [h0, List.nil_append]
        exact ihS (hsame.trans hc)
      · rw [h1, List.singleton_append]
        by_cases hc1 : l1.srv.Status.Code = STARTING
        · rw [hc1, collapse_same]
          exact ihS hc1
        · rw [collapse_ne _ _ _ (Ne.symm hc1), List.count_cons_self]
          have hnot : STARTING ∉ collapse (l1.srv.Status.Code :: codes e2) := by
            intro hmem
            have hmem2 := (collapse_sublist _).subset hmem
            rcases List.mem_cons.mp hmem2 with hh | hh
            · exact hc1 hh.symm
            · exact ihN hc1 hh
          rw [List.count_eq_zero_of_not_mem hnot]
    · intro hc
      have hc1 : l1.srv.Status.Code ≠ STARTING := fun h1 => hc (hback h1)
      rcases hshape with ⟨h0, _⟩ | h1
      · rw [h0, List.nil_append]
        exact ihN hc1
      · rw [h1, List.singleton_append]
        intro hmem
        rcases List.mem_cons.mp hmem with hh | hh
        · exact hc1 hh.symm
        · exact ihN hc1 hh

/-- From registration on, the observed sequence contains `STARTING` at most once. -/
theorem starting_once_from_created (steps : List Step) :
    ∀ (l l2 : Listener) (evs : List UIUpdate), l.start = StartPc.created →
      l.health = HealthPc.idle → exec l steps = some (l2, evs) →
      (collapse (codes evs)).count STARTING ≤ 1 := by
  induction steps with
  | nil =>
    intro l l2 evs _ _ h
    simp only [exec, Option.some.injEq, Prod.mk.injEq] at h
    obtain ⟨_, h2⟩ := h
    subst h2
    simp [codes, collapse]
  | cons st rest ih =>
    intro l l2 evs hstart hhealth h
    obtain ⟨l1, e1, e2, hs, he, hevs⟩ := exec_cons_inv l l2 st rest evs h
    subst hevs
    have hinv := step_inv l l1 st e1 hs
    rw [codes_append]
    cases st with
    | startBegin =>
      obtain ⟨_, h2, h3, h4⟩ := hinv
      rw [h4, List.singleton_append]
      exact (starting_once_after_begin rest l1 l2 e2 (by rw [h2]; simp) he).1 h3
    | schedule => rw [hstart] at hinv; cases hinv.1
    | serveReturn => rw [hstart] at hinv; cases hinv.1
    | startFinish => rw [hstart] at hinv; cases hinv.1
    | stop =>
      obtain ⟨h1, h2, _, h4⟩ := hinv
      rw [h4, List.singleton_append, count_collapse_cons _ _ _ (by decide)]
      exact ih l1 l2 e2 (h1.trans hstart) (h2.trans hhealth) he
    | tick => exact absurd hhealth hinv.1
    | clear => exact absurd hhealth hinv.1
    | probe o =>
      cases o with
      | transportError => exact absurd hhealth hinv.1
      | response n => exact absurd hhealth hinv.1

/-- Moving from `c` to a later state `d` of the lifecycle order keeps the observed
sequence inside the order. -/
theorem orderFrom_advance (c d : StatusCode) (xs : List StatusCode)
    (hd : List.Sublist (collapse (d :: xs)) (orderFrom d))
    (hcd : (c = STARTING ∧ (d = OK ∨ d = SHUTTINGDOWN ∨ d = DOWN)) ∨
      (c = OK ∧ (d = SHUTTINGDOWN ∨ d = DOWN)) ∨ (c = SHUTTINGDOWN ∧ d = DOWN)) :
    List.Sublist (collapse (c :: d :: xs)) (orderFrom c) := by
  have hne : c ≠ d := by
    rcases hcd with ⟨h1, h2 | h2 | h2⟩ | ⟨h1, h2 | h2⟩ | ⟨h1, h2⟩ <;> subst h1 <;> subst h2 <;> decide
  rw [collapse_ne _ _ _ hne]
  have hsub : List.Sublist (c :: orderFrom d) (orderFrom c) := by
    rcases hcd with ⟨h1, h2 | h2 | h2⟩ | ⟨h1, h2 | h2⟩ | ⟨h1, h2⟩ <;> subst h1 <;> subst h2 <;> decide
  exact (hd.cons₂ c).trans hsub

/-- After the first block of `Start`, an execution whose steps are all timely shows
a part of the lifecycle order that starts at the current state. -/
theorem ordered_after_begin (steps : List Step) :
    ∀ (l l2 : Listener) (evs : List UIUpdate), l.start ≠ StartPc.created →
      (l.start = StartPc.announced ∨ l.start = StartPc.serving →
        l.srv.Status.Code = STARTING ∨ l.srv.Status.Code = OK ∨
          l.srv.Status.Code = SHUTTINGDOWN) →
      (¬ (l.start = StartPc.announced ∨ l.start = StartPc.serving) →
        l.srv.Status.Code = DOWN) →
      exec l steps = some (l2, evs) → allTimely l steps = true →
      List.Sublist (collapse (l.srv.Status.Code :: codes evs)) (orderFrom l.srv.Status.Code) := by
  induction steps with
  | nil =>
    intro l l2 evs hstart hserv hquiet h _
    simp only [exec, Option.some.injEq, Prod.mk.injEq] at h
    obtain ⟨_, h2⟩ := h
    subst h2
    by_cases hp : l.start = StartPc.announced ∨ l.start = StartPc.serving
    · rcases hserv hp with hc | hc | hc <;> rw [hc] <;> decide
    · rw [hquiet hp]; decide
  | cons st rest ih =>
    intro l l2 evs hstart hserv hquiet h ht
    obtain ⟨l1, e1, e2, hs, he, hevs⟩ := exec_cons_inv l l2 st rest evs h
    subst hevs
    have hinv := step_inv l l1 st e1 hs
    simp only [allTimely, hs, Bool.and_eq_true] at ht
    obtain ⟨ht0, ht1⟩ := ht
    rw [codes_append]
    -- a step that keeps the code and sends it, or sends nothing
    have keep : l1.start = l.start →
        l1.srv.Status.Code = l.srv.Status.Code →
        (codes e1 = [] ∨ codes e1 = [l.srv.Status.Code]) →
        List.Sublist (collapse (l.srv.Status.Code :: (codes e1 ++ codes e2)))
          (orderFrom l.srv.Status.Code) := by
      intro h2 h3 h4
      have hrec := ih l1 l2 e2 (by rw [h2]; exact hstart)
        (fun hp => by rw [h3]; rw [h2] at hp; exact hserv hp)
        (fun hp => by rw [h3]; rw [h2] at hp; exact hquiet hp)
        he ht1
      rw [h3] at hrec
      rcases h4 with h4 | h4
      · rw [h4, List.nil_append]; exact hrec
      · rw [h4, List.singleton_append, collapse_same]; exact hrec
    -- a timely step that is refused once the listener is down
    have live : l.srv.Status.Code = STARTING ∨ l.srv.Status.Code = OK ∨
        l.srv.Status.Code = SHUTTINGDOWN →
        l.start = StartPc.announced ∨ l.start = StartPc.serving := by
      intro hc
      by_contra hne
      have hdown := hquiet hne
      rw [hdown] at hc
      revert hc
      decide
    cases st with
    | startBegin => exact absurd hinv.1 hstart
    | schedule =>
      obtain ⟨h1, h2, h3, h4⟩ := hinv
      have hrec := ih l1 l2 e2 (by rw [h2]; simp)
        (fun _ => by rw [h3]; exact hserv (Or.inl h1))
        (fun hq => absurd (Or.inr h2) hq) he ht1
      rw [h3] at hrec
      rw [h4, List.nil_append]
      exact hrec
    | serveReturn =>
      obtain ⟨h1, h2, h3, h4⟩ := hinv
      have hrec := ih l1 l2 e2 (by rw [h2]; simp)
        (fun hp => by rw [h2] at hp; rcases hp with hp | hp <;> cases hp)
        (fun _ => h3) he ht1
      rw [h3] at hrec
      rw [h4, List.singleton_append]
      rcases hserv (Or.inr h1) with hc | hc | hc
      · rw [hc]; exact orderFrom_advance _ _ _ hrec (Or.inl ⟨rfl, Or.inr (Or.inr rfl)⟩)
      · rw [hc]; exact orderFrom_advance _ _ _ hrec (Or.inr (Or.inl ⟨rfl, Or.inr rfl⟩))
      · rw [hc]; exact orderFrom_advance _ _ _ hrec (Or.inr (Or.inr ⟨rfl, rfl⟩))
    | startFinish =>
      obtain ⟨h1, h2, h3, h4⟩ := hinv
      have hdown : l.srv.Status.Code = DOWN := hquiet (by rw [h1]; simp)
      have hrec := ih l1 l2 e2 (by rw [h2]; simp)
        (fun hp => by rw [h2] at hp; rcases hp with hp | hp <;> cases hp)
        (fun _ => h3.trans hdown) he ht1
      rw [h3] at hrec
      rw [h4, List.singleton_append, collapse_same]
      exact hrec
    | stop =>
      obtain ⟨h1, h2, h3, h4⟩ := hinv
      simp only [timely, decide_eq_true_eq] at ht0
      have hp := live ht0
      have hrec := ih l1 l2 e2 (by rw [h1]; exact hstart) (fun _ => Or.inr (Or.inr h3))
        (fun hq => absurd (by rw [h1]; exact hp) hq) he ht1
      rw [h3] at hrec
      rw [h4, List.singleton_append]
      rcases ht0 with hc | hc | hc
      · rw [hc]; exact orderFrom_advance _ _ _ hrec (Or.inl ⟨rfl, Or.inr (Or.inl rfl)⟩)
      · rw [hc]; exact orderFrom_advance _ _ _ hrec (Or.inr (Or.inl ⟨rfl, Or.inl rfl⟩))
      · rw [hc, collapse_same]; exact hrec
    | tick =>
      obtain ⟨_, h2, h3, h4⟩ := hinv
      exact keep h2 h3 (Or.inr h4)
    | clear =>
      obtain ⟨_, h2, h3, h4⟩ := hinv
      exact keep h2 h3 (Or.inr h4)
    | probe o =>
      cases o with
      | transportError =>
        obtain ⟨_, h2, h3, h4⟩ := hinv
        exact keep h2 h3 (Or.inl h4)
      | response n =>
        obtain ⟨_, h2, h3, h4⟩ := hinv
        simp only [timely, decide_eq_true_eq] at ht0
        have hp := live (Or.inl ht0)
        have hrec := ih l1 l2 e2 (by rw [h2]; exact hstart) (fun _ => Or.inr (Or.inl h3))
          (fun hq => absurd (by rw [h2]; exact hp) hq) he ht1
        rw [h3] at hrec
        rw [h4, List.singleton_append, ht0]
        exact orderFrom_advance _ _ _ hrec (Or.inl ⟨rfl, Or.inl rfl⟩)

/-! ## Theorems: lifecycle -/

/-- C5 as stated fails. A listener that is started, stopped, whose serve loop
returns, and that is stopped again during the sleep before `RemoveServer` shows
`STARTING, SHUTTINGDOWN, DOWN, SHUTTINGDOWN`; one whose probe response arrives
after `Stop` and after the serve loop has returned shows
`STARTING, SHUTTINGDOWN, DOWN, OK`. Neither is part of the lifecycle order. -/
theorem lifecycle_order_fails :
    (∃ l evs,
      exec (Listener.init (NewServer 9002 2))
        [Step.startBegin, Step.schedule, Step.stop, Step.serveReturn, Step.stop,
         Step.startFinish] = some (l, evs) ∧
      lifecycle evs = [STARTING, SHUTTINGDOWN, DOWN, SHUTTINGDOWN] ∧
      ¬ List.Sublist (lifecycle evs) [STARTING, OK, SHUTTINGDOWN, DOWN] ∧
      lifecycle evs ≠ [STARTING, DOWN]) ∧
    (∃ l evs,
      exec (Listener.init (NewServer 9002 2))
        [Step.startBegin, Step.schedule, Step.tick, Step.tick, Step.tick, Step.clear,
         Step.stop, Step.serveReturn, Step.probe (ProbeOutcome.response 200)] =
          some (l, evs) ∧
      lifecycle evs = [STARTING, SHUTTINGDOWN, DOWN, OK] ∧
      ¬ List.Sublist (lifecycle evs) [STARTING, OK, SHUTTINGDOWN, DOWN] ∧
      lifecycle evs ≠ [STARTING, DOWN]) := by
  refine ⟨⟨_, _, rfl, ?_, ?_, ?_⟩, ⟨_, _, rfl, ?_, ?_, ?_⟩⟩ <;> decide

/-- C5 amended: in every execution of a listener made by `NewServer`, the
observed lifecycle sequence contains `STARTING` at most once; and when every `Stop`
step is taken while the listener is `STARTING`, `OK` or `SHUTTINGDOWN` and every
probe response arrives while it is `STARTING`, the observed lifecycle sequence is a
subsequence of `STARTING, OK, SHUTTINGDOWN, DOWN`. -/
theorem lifecycle_order_when_timely (p : port) (id : UUID) (steps : List Step)
    (l : Listener) (evs : List UIUpdate)
    (h : exec (Listener.init (NewServer p id)) steps = some (l, evs)) :
    (lifecycle evs).count STARTING ≤ 1 ∧
    (allTimely (Listener.init (NewServer p id)) steps = true →
      List.Sublist (lifecycle evs) [STARTING, OK, SHUTTINGDOWN, DOWN]) := by
  refine ⟨starting_once_from_created steps _ l evs rfl rfl h, ?_⟩
  intro ht
  show List.Sublist (collapse (codes evs)) lifecycleOrder
  cases steps with
  | nil =>
    simp only [exec, Option.some.injEq, Prod.mk.injEq] at h
    obtain ⟨_, h2⟩ := h
    subst h2
    decide
  | cons st rest =>
    obtain ⟨l1, e1, e2, hs, he, hevs⟩ := exec_cons_inv _ l st rest evs h
    subst hevs
    have hinv := step_inv _ l1 st e1 hs
    simp only [allTimely, hs, Bool.and_eq_true] at ht
    obtain ⟨ht0, ht1⟩ := ht
    rw [codes_append]
    cases st with
    | startBegin =>
      obtain ⟨_, h2, h3, h4⟩ := hinv
      have hrec := ordered_after_begin rest l1 l e2 (by rw [h2]; simp)
        (fun _ => Or.inl h3) (fun hq => absurd (Or.inl h2) hq) he ht1
      rw [h3] at hrec
      rw [h4, List.singleton_append]
      exact hrec
    | schedule => cases hinv.1
    | serveReturn => cases hinv.1
    | startFinish => cases hinv.1
    | stop =>
      simp [timely, Listener.init, NewServer] at ht0
    | tick => exact absurd rfl hinv.1
    | clear => exact absurd rfl hinv.1
    | probe o =>
      cases o with
      | transportError => exact absurd rfl hinv.1
      | response n => exact absurd rfl hinv.1

/-- Witness for C5 amended: a listener that counts down, is probed with status 200
while `STARTING`, is then stopped, and whose serve loop returns, shows the whole
lifecycle order. -/
theorem lifecycle_order_when_timely_witness :
    ∃ l evs,
      exec (Listener.init (NewServer 9001 1))
        [Step.startBegin, Step.schedule, Step.tick, Step.tick, Step.tick, Step.clear,
         Step.probe (ProbeOutcome.response 200), Step.stop, Step.serveReturn,
         Step.startFinish] = some (l, evs) ∧
      lifecycle evs = [STARTING, OK, SHUTTINGDOWN, DOWN] ∧
      (lifecycle evs).count STARTING ≤ 1 ∧
      List.Sublist (lifecycle evs) [STARTING, OK, SHUTTINGDOWN, DOWN] := by
  have h := lifecycle_order_when_timely 9001 1
    [Step.startBegin, Step.schedule, Step.tick, Step.tick, Step.tick, Step.clear,
     Step.probe (ProbeOutcome.response 200), Step.stop, Step.serveReturn,
     Step.startFinish] _ _ rfl
  exact ⟨_, _, rfl, by decide, h.1, h.2 (by decide)⟩

/-! ## Lemmas: events of Start and Stop -/

/-- What the observer reads of the events of each step; identity and port stay. -/
theorem step_brief (l l1 : Listener) (st : Step) (e1 : List UIUpdate)
    (h : step l st = some (l1, e1)) :
    l1.srv.ID = l.srv.ID ∧ l1.srv.Port = l.srv.Port ∧
    match st with
    | Step.startBegin => e1.map brief = [(AddServer, l.srv.ID, l.srv.Port, STARTING)]
    | Step.schedule => e1 = []
    | Step.serveReturn => e1.map brief = [(UpdateServer, l.srv.ID, l.srv.Port, DOWN)]
    | Step.startFinish =>
      e1.map brief = [(RemoveServer, l.srv.ID, l.srv.Port, l.srv.Status.Code)]
    | Step.stop => e1.map brief = [(UpdateServer, l.srv.ID, l.srv.Port, SHUTTINGDOWN)]
    | _ => True := by
  cases st with
  | startBegin =>
    simp only [step] at h
    split at h
    · simp only [Option.some.injEq, Prod.mk.injEq] at h
      obtain ⟨h1, h2⟩ := h
      subst h1 h2
      exact ⟨rfl, rfl, rfl⟩
    · cases h
  | schedule =>
    simp only [step] at h
    split at h
    · simp only [Option.some.injEq, Prod.mk.injEq] at h
      obtain ⟨h1, h2⟩ := h
      subst h1 h2
      refine ⟨?_, ?_, rfl⟩
      · unfold ScheduleHealthCheck; split <;> rfl
      · unfold ScheduleHealthCheck; split <;> rfl
    · cases h
  | serveReturn =>
    simp only [step] at h
    split at h
    · simp only [Option.some.injEq, Prod.mk.injEq] at h
      obtain ⟨h1, h2⟩ := h
      subst h1 h2
      exact ⟨rfl, rfl, rfl⟩
    · cases h
  | startFinish =>
    simp only [step] at h
    split at h
    · simp only [Option.some.injEq, Prod.mk.injEq] at h
      obtain ⟨h1, h2⟩ := h
      subst h1 h2
      exact ⟨rfl, rfl, rfl⟩
    · cases h
  | stop =>
    simp only [step] at h
    split at h
    · cases h
    · simp only [Option.some.injEq, Prod.mk.injEq] at h
      obtain ⟨h1, h2⟩ := h
      subst h1 h2
      exact ⟨rfl, rfl, rfl⟩
  | tick =>
    simp only [step] at h
    split at h
    · simp only [Option.some.injEq, Prod.mk.injEq] at h
      obtain ⟨h1, h2⟩ := h
      subst h1 h2
      exact ⟨rfl, rfl, trivial⟩
    · cases h
  | clear =>
    simp only [step] at h
    split at h
    · simp only [Option.some.injEq, Prod.mk.injEq] at h
      obtain ⟨h1, h2⟩ := h
      subst h1 h2
      exact ⟨rfl, rfl, trivial⟩
    · cases h
  | probe o =>
    simp only [step] at h
    split at h
    · cases o with
      | transportError =>
        simp only [Option.some.injEq, Prod.mk.injEq] at h
        obtain ⟨h1, h2⟩ := h
        subst h1 h2
        exact ⟨rfl, rfl, trivial⟩
      | response n =>
        simp only [Option.some.injEq, Prod.mk.injEq] at h
        obtain ⟨h1, h2⟩ := h
        subst h1 h2
        exact ⟨rfl, rfl, trivial⟩
    · cases h

theorem execTagged_cons_inv (l l2 : Listener) (st : Step) (rest : List Step)
    (tevs : List (Step × UIUpdate)) (h : execTagged l (st :: rest) = some (l2, tevs)) :
    ∃ l1 e1 t2, step l st = some (l1, e1) ∧ execTagged l1 rest = some (l2, t2) ∧
      tevs = e1.map (fun u => (st, u)) ++ t2 := by
  simp only [execTagged] at h
  cases hs : step l st with
  | none => rw [hs] at h; cases h
  | some r1 =>
    obtain ⟨l1, e1⟩ := r1
    rw [hs] at h
    dsimp only at h
    cases he : execTagged l1 rest with
    | none => rw [he] at h; cases h
    | some r2 =>
      obtain ⟨l2', t2⟩ := r2
      rw [he] at h
      simp only [Option.some.injEq, Prod.mk.injEq] at h
      obtain ⟨h1, h2⟩ := h
      subst h1 h2
      exact ⟨l1, e1, t2, rfl, he, rfl⟩

/-- Dropping the tags of `execTagged` gives `exec`. -/
theorem execTagged_untag (steps : List Step) :
    ∀ l : Listener, (execTagged l steps).map (fun r => (r.1, r.2.map fun te => te.2)) =
      exec l steps := by
  induction steps with
  | nil => intro l; rfl
  | cons st rest ih =>
    intro l
    simp only [execTagged, exec]
    cases hs : step l st with
    | none => rfl
    | some r1 =>
      obtain ⟨l1, e1⟩ := r1
      dsimp only
      rw [← ih l1]
      cases execTagged l1 rest with
      | none => rfl
      | some r2 => simp [Function.comp_def]

theorem startStopEvents_append (st : Step) (e1 : List UIUpdate) (t2 : List (Step × UIUpdate)) :
    startStopEvents (e1.map (fun u => (st, u)) ++ t2) =
      (if st.isHealth then [] else e1) ++ startStopEvents t2 := by
  unfold startStopEvents
  rw [List.filter_append, List.map_append]
  congr 1
  cases hst : st.isHealth <;> simp [List.filter_map, Function.comp_def, hst]

/-- Without further `Stop`, what `Start` still sends until it returns is fixed by
where it stands: `UpdateServer` carrying `DOWN` when the serve loop is ahead, then
`RemoveServer`. -/
theorem start_remaining_events (steps : List Step) :
    ∀ (l l2 : Listener) (tevs : List (Step × UIUpdate)), Step.stop ∉ steps →
      execTagged l steps = some (l2, tevs) → l2.start = StartPc.returned →
      (l.start = StartPc.announced ∨ l.start = StartPc.serving →
        ∃ c, (startStopEvents tevs).map brief =
          [(UpdateServer, l.srv.ID, l.srv.Port, DOWN), (RemoveServer, l.srv.ID, l.srv.Port, c)]) ∧
      (l.start = StartPc.quiescing →
        ∃ c, (startStopEvents tevs).map brief = [(RemoveServer, l.srv.ID, l.srv.Port, c)]) ∧
      (l.start = StartPc.returned → startStopEvents tevs = []) := by
  induction steps with
  | nil =>
    intro l l2 tevs _ h hdone
    simp only [execTagged, Option.some.injEq, Prod.mk.injEq] at h
    obtain ⟨h1, h2⟩ := h
    subst h1 h2
    refine ⟨?_, ?_, fun _ => rfl⟩
    · intro hp
      rw [hdone] at hp
      rcases hp with hp | hp <;> cases hp
    · intro hp
      rw [hdone] at hp
      cases hp
  | cons st rest ih =>
    intro l l2 tevs hstop h hdone
    obtain ⟨l1, e1, t2, hs, he, htevs⟩ := execTagged_cons_inv l l2 st rest tevs h
    subst htevs
    have hinv := step_inv l l1 st e1 hs
    obtain ⟨hid, hport, hbrief⟩ := step_brief l l1 st e1 hs
    have hrest : Step.stop ∉ rest := fun hm => hstop (List.mem_cons_of_mem _ hm)
    obtain ⟨ihA, ihQ, ihR⟩ := ih l1 l2 t2 hrest he hdone
    rw [hid, hport] at ihA ihQ
    rw [startStopEvents_append]
    -- a health-check step leaves `Start` where it is and is not counted
    have health : st.isHealth = true → l1.start = l.start →
        (l.start = StartPc.announced ∨ l.start = StartPc.serving →
          ∃ c, ((if st.isHealth then [] else e1) ++ startStopEvents t2).map brief =
            [(UpdateServer, l.srv.ID, l.srv.Port, DOWN),
             (RemoveServer, l.srv.ID, l.srv.Port, c)]) ∧
        (l.start = StartPc.quiescing →
          ∃ c, ((if st.isHealth then [] else e1) ++ startStopEvents t2).map brief =
            [(RemoveServer, l.srv.ID, l.srv.Port, c)]) ∧
        (l.start = StartPc.returned →
          (if st.isHealth then [] else e1) ++ startStopEvents t2 = []) := by
      intro hh hsame
      rw [hsame] at ihA ihQ ihR
      simp only [hh, if_true, List.nil_append]
      exact ⟨ihA, ihQ, ihR⟩
    cases st with
    | startBegin =>
      obtain ⟨h1, _⟩ := hinv
      refine ⟨?_, ?_, ?_⟩ <;> intro hp <;> rw [h1] at hp
      · rcases hp with hp | hp <;> cases hp
      · cases hp
      · cases hp
    | schedule =>
      obtain ⟨h1, h2, _, _⟩ := hinv
      dsimp only at hbrief
      subst hbrief
      refine ⟨fun _ => ?_, ?_, ?_⟩
      · simpa [Step.isHealth] using ihA (Or.inr h2)
      · intro hp; rw [h1] at hp; cases hp
      · intro hp; rw [h1] at hp; cases hp
    | serveReturn =>
      obtain ⟨h1, h2, _, _⟩ := hinv
      dsimp only at hbrief
      refine ⟨fun _ => ?_, ?_, ?_⟩
      · obtain ⟨c, hc⟩ := ihQ h2
        exact ⟨c, by simp [Step.isHealth, hbrief, hc]⟩
      · intro hp; rw [h1] at hp; cases hp
      · intro hp; rw [h1] at hp; cases hp
    | startFinish =>
      obtain ⟨h1, h2, _, _⟩ := hinv
      dsimp only at hbrief
      refine ⟨?_, fun _ => ?_, ?_⟩
      · intro hp; rw [h1] at hp; rcases hp with hp | hp <;> cases hp
      · exact ⟨l.srv.Status.Code, by simp [Step.isHealth, hbrief, ihR h2]⟩
      · intro hp; rw [h1] at hp; cases hp
    | stop => exact absurd (List.mem_cons_self _ _) hstop
    | tick => exact health rfl hinv.2.1
    | clear => exact health rfl hinv.2.1
    | probe o =>
      cases o with
      | transportError => exact health rfl hinv.2.1
      | response n => exact health rfl hinv.2.1

/-- An event is fixed by what the observer reads of it and by its countdown. -/
theorem eq_of_brief (u : UIUpdate) (t : UIUpdateType) (id : UUID) (p : port) (c : StatusCode)
    (h : brief u = (t, id, p, c)) :
    u = { Typ := t, ServerID := id, ServerPort := p,
          ServerStatus := { Code := c, UntilHealthCheck := u.ServerStatus.UntilHealthCheck } } := by
  obtain ⟨t0, i0, p0, ⟨c0, n0⟩⟩ := u
  simp only [brief, Prod.mk.injEq] at h
  obtain ⟨h1, h2, h3, h4⟩ := h
  subst h1 h2 h3 h4
  rfl

/-- The observer model under the four events of a start followed by a stop. -/
theorem fold_start_stop (ui : UI) (id : UUID) (p : port) (c : StatusCode)
    (u1 u2 u3 u4 : UIUpdate) (habs : ∀ d ∈ ui.serverDetails, d.ID ≠ id)
    (h1 : brief u1 = (AddServer, id, p, STARTING))
    (h2 : brief u2 = (UpdateServer, id, p, SHUTTINGDOWN))
    (h3 : brief u3 = (UpdateServer, id, p, DOWN))
    (h4 : brief u4 = (RemoveServer, id, p, c)) :
    applyUpdates ui [u1] =
      some { serverDetails := ui.serverDetails ++ [{ ID := id, Port := p, Status := STARTING }] } ∧
    applyUpdates ui [u1, u2] =
      some { serverDetails :=
        ui.serverDetails ++ [{ ID := id, Port := p, Status := SHUTTINGDOWN }] } ∧
    applyUpdates ui [u1, u2, u3] =
      some { serverDetails := ui.serverDetails ++ [{ ID := id, Port := p, Status := DOWN }] } ∧
    applyUpdates ui [u1, u2, u3, u4] = some ui := by
  rw [eq_of_brief u1 _ _ _ _ h1, eq_of_brief u2 _ _ _ _ h2, eq_of_brief u3 _ _ _ _ h3,
    eq_of_brief u4 _ _ _ _ h4]
  refine ⟨?_, ?_, ?_, ?_⟩
  · simp only [applyUpdates, applyUpdate_add]
  · simp only [applyUpdates, applyUpdate_add, applyUpdate_update_last _ _ _ _ _ _ habs]
  · simp only [applyUpdates, applyUpdate_add, applyUpdate_update_last _ _ _ _ _ _ habs]
  · simp only [applyUpdates, applyUpdate_add, applyUpdate_update_last _ _ _ _ _ _ habs,
      applyUpdate_remove_last _ _ _ _ _ _ habs]

/-- A step of `Start` other than the return of the serve loop: which one it is
follows from where `Start` stands. -/
theorem start_step_cases (l l1 : Listener) (st : Step) (e1 : List UIUpdate)
    (hs : step l st = some (l1, e1))
    (hp : st.isHealth = false ∧ st ≠ Step.stop ∧ st ≠ Step.serveReturn) :
    (st = Step.startBegin ∧ l.start = StartPc.created ∧ l1.start = StartPc.announced) ∨
    (st = Step.schedule ∧ l.start = StartPc.announced ∧ l1.start = StartPc.serving) ∨
    (st = Step.startFinish ∧ l.start = StartPc.quiescing) := by
  have hinv := step_inv l l1 st e1 hs
  obtain ⟨hh, hnstop, hnserve⟩ := hp
  cases st with
  | startBegin => exact Or.inl ⟨rfl, hinv.1, hinv.2.1⟩
  | schedule => exact Or.inr (Or.inl ⟨rfl, hinv.1, hinv.2.1⟩)
  | serveReturn => exact absurd rfl hnserve
  | startFinish => exact Or.inr (Or.inr ⟨rfl, hinv.1⟩)
  | stop => exact absurd rfl hnstop
  | tick => cases hh
  | clear => cases hh
  | probe o => cases hh

/-- From a listener whose serve loop has not returned: one `Stop`, then no further
`Stop` until `Start` has returned. -/
theorem stop_then_remaining (post : List Step) (l l2 : Listener)
    (tevs : List (Step × UIUpdate))
    (hlive : l.start = StartPc.announced ∨ l.start = StartPc.serving)
    (hpost : Step.stop ∉ post)
    (h : execTagged l (Step.stop :: post) = some (l2, tevs))
    (hdone : l2.start = StartPc.returned) :
    ∃ c, (startStopEvents tevs).map brief =
      [(UpdateServer, l.srv.ID, l.srv.Port, SHUTTINGDOWN),
       (UpdateServer, l.srv.ID, l.srv.Port, DOWN),
       (RemoveServer, l.srv.ID, l.srv.Port, c)] := by
  obtain ⟨l1, e1, t2, hs, he, htevs⟩ := execTagged_cons_inv l l2 Step.stop post tevs h
  subst htevs
  have hinv := step_inv l l1 Step.stop e1 hs
  obtain ⟨hid, hport, hbrief⟩ := step_brief l l1 Step.stop e1 hs
  dsimp only at hbrief
  have hlive1 : l1.start = StartPc.announced ∨ l1.start = StartPc.serving := by
    rw [hinv.1]; exact hlive
  obtain ⟨c, hc⟩ := (start_remaining_events post l1 l2 t2 hpost he hdone).1 hlive1
  rw [hid, hport] at hc
  exact ⟨c, by rw [startStopEvents_append]; simp [Step.isHealth, hbrief, hc]⟩

theorem map_eq_four {α β : Type} (f : α → β) (xs : List α) (a b c d : β)
    (h : xs.map f = [a, b, c, d]) :
    ∃ u1 u2 u3 u4, xs = [u1, u2, u3, u4] ∧ f u1 = a ∧ f u2 = b ∧ f u3 = c ∧ f u4 = d := by
  match xs, h with
  | [u1, u2, u3, u4], h =>
    simp only [List.map_cons, List.map_nil, List.cons.injEq, and_true] at h
    exact ⟨u1, u2, u3, u4, rfl, h.1, h.2.1, h.2.2.1, h.2.2.2⟩

/-! ## Theorems: start then stop -/

/-- C9 as stated fails. A listener whose serve loop returns at once (the port
cannot be bound) and that is stopped during the sleep before `RemoveServer`, before
any health-check step, sends `AddServer` (`STARTING`), `UpdateServer` (`DOWN`),
`UpdateServer` (`SHUTTINGDOWN`), `RemoveServer`: `DOWN` comes before
`SHUTTINGDOWN`. -/
theorem start_stop_order_fails :
    ∃ l tevs,
      execTagged (Listener.init (NewServer 9002 2))
        [Step.startBegin, Step.schedule, Step.serveReturn, Step.stop, Step.startFinish] =
          some (l, tevs) ∧
      l.start = StartPc.returned ∧
      (startStopEvents tevs).map brief =
        [(AddServer, 2, 9002, STARTING), (UpdateServer, 2, 9002, DOWN),
         (UpdateServer, 2, 9002, SHUTTINGDOWN), (RemoveServer, 2, 9002, SHUTTINGDOWN)] ∧
      ¬ ∃ c, (startStopEvents tevs).map brief =
        [(AddServer, 2, 9002, STARTING), (UpdateServer, 2, 9002, SHUTTINGDOWN),
         (UpdateServer, 2, 9002, DOWN), (RemoveServer, 2, 9002, c)] := by
  refine ⟨_, _, rfl, rfl, by decide, ?_⟩
  rintro ⟨c, hc⟩
  simp [startStopEvents, brief, Step.isHealth, Server.update] at hc

/-- C9 amended: a listener made by `NewServer` is started, then stopped once,
before any health-check step and before its serve loop has returned, and its
`Start` runs to its end (health-check steps may come anywhere after the `Stop`).
Then the events sent by `Start` and `Stop` are, in order, `AddServer`
(`STARTING`), `UpdateServer` (`SHUTTINGDOWN`), `UpdateServer` (`DOWN`),
`RemoveServer`, all with the identity and port of the listener; and an observer
model without that identity, fed these four events in order, is the model plus one
last entry for the identity and port with status `STARTING`, then `SHUTTINGDOWN`,
then `DOWN`, and finally the model it started from. -/
theorem start_stop_event_sequence (p : port) (id : UUID) (pre post : List Step)
    (l : Listener) (tevs : List (Step × UIUpdate))
    (hrun : execTagged (Listener.init (NewServer p id)) (pre ++ Step.stop :: post) =
      some (l, tevs))
    (hdone : l.start = StartPc.returned)
    (hstarted : Step.startBegin ∈ pre)
    (hpre : ∀ st ∈ pre, st.isHealth = false ∧ st ≠ Step.stop ∧ st ≠ Step.serveReturn)
    (hpost : Step.stop ∉ post)
    (ui : UI) (habs : ∀ d ∈ ui.serverDetails, d.ID ≠ id) :
    ∃ u1 u2 u3 u4 c,
      startStopEvents tevs = [u1, u2, u3, u4] ∧
      brief u1 = (AddServer, id, p, STARTING) ∧
      brief u2 = (UpdateServer, id, p, SHUTTINGDOWN) ∧
      brief u3 = (UpdateServer, id, p, DOWN) ∧
      brief u4 = (RemoveServer, id, p, c) ∧
      applyUpdates ui [u1] =
        some { serverDetails :=
          ui.serverDetails ++ [{ ID := id, Port := p, Status := STARTING }] } ∧
      applyUpdates ui [u1, u2] =
        some { serverDetails :=
          ui.serverDetails ++ [{ ID := id, Port := p, Status := SHUTTINGDOWN }] } ∧
      applyUpdates ui [u1, u2, u3] =
        some { serverDetails := ui.serverDetails ++ [{ ID := id, Port := p, Status := DOWN }] } ∧
      applyUpdates ui [u1, u2, u3, u4] = some ui := by
  -- the events, as the observer reads them
  have hev : ∃ c, (startStopEvents tevs).map brief =
      [(AddServer, id, p, STARTING), (UpdateServer, id, p, SHUTTINGDOWN),
       (UpdateServer, id, p, DOWN), (RemoveServer, id, p, c)] := by
    cases pre with
    | nil => cases hstarted
    | cons st1 pre1 =>
      rw [List.cons_append] at hrun
      obtain ⟨la, ea, ta, hsa, hea, hta⟩ := execTagged_cons_inv _ l st1 _ tevs hrun
      subst hta
      have hst1 : st1 = Step.startBegin ∧ la.start = StartPc.announced := by
        rcases start_step_cases _ la st1 ea hsa (hpre st1 (List.mem_cons_self _ _)) with
          ⟨h1, _, h3⟩ | ⟨_, h2, _⟩ | ⟨_, h2⟩
        · exact ⟨h1, h3⟩
        · cases h2
        · cases h2
      obtain ⟨hst1, hla⟩ := hst1
      subst hst1
      obtain ⟨hida, hporta, hba⟩ := step_brief _ la Step.startBegin ea hsa
      dsimp only at hba
      have hida : la.srv.ID = id := hida
      have hporta : la.srv.Port = p := hporta
      have hba : ea.map brief = [(AddServer, id, p, STARTING)] := hba
      rw [startStopEvents_append]
      cases pre1 with
      | nil =>
        obtain ⟨c, hc⟩ := stop_then_remaining post la l ta (Or.inl hla) hpost hea hdone
        rw [hida, hporta] at hc
        exact ⟨c, by simp [Step.isHealth, hba, hc]⟩
      | cons st2 pre2 =>
        rw [List.cons_append] at hea
        obtain ⟨lb, eb, tb, hsb, heb, htb⟩ := execTagged_cons_inv la l st2 _ ta hea
        subst htb
        have hmem2 : st2 ∈ Step.startBegin :: st2 :: pre2 :=
          List.mem_cons_of_mem _ (List.mem_cons_self _ _)
        have hst2 : st2 = Step.schedule ∧ lb.start = StartPc.serving := by
          rcases start_step_cases la lb st2 eb hsb (hpre st2 hmem2) with
            ⟨_, h2, _⟩ | ⟨h1, _, h3⟩ | ⟨_, h2⟩
          · rw [hla] at h2; cases h2
          · exact ⟨h1, h3⟩
          · rw [hla] at h2; cases h2
        obtain ⟨hst2, hlb⟩ := hst2
        subst hst2
        obtain ⟨hidb, hportb, hbb⟩ := step_brief la lb Step.schedule eb hsb
        dsimp only at hbb
        subst hbb
        rw [startStopEvents_append]
        cases pre2 with
        | nil =>
          obtain ⟨c, hc⟩ := stop_then_remaining post lb l tb (Or.inr hlb) hpost heb hdone
          rw [hidb, hportb, hida, hporta] at hc
          exact ⟨c, by simp [Step.isHealth, hba, hc]⟩
        | cons st3 pre3 =>
          rw [List.cons_append] at heb
          obtain ⟨lc, ec, tc, hsc, _, _⟩ := execTagged_cons_inv lb l st3 _ tb heb
          have hmem3 : st3 ∈ Step.startBegin :: Step.schedule :: st3 :: pre3 :=
            List.mem_cons_of_mem _ (List.mem_cons_of_mem _ (List.mem_cons_self _ _))
          rcases start_step_cases lb lc st3 ec hsc (hpre st3 hmem3) with
            ⟨_, h2, _⟩ | ⟨_, h2, _⟩ | ⟨_, h2⟩ <;> rw [hlb] at h2 <;> cases h2
  obtain ⟨c, hc⟩ := hev
  obtain ⟨u1, u2, u3, u4, hlist, h1, h2, h3, h4⟩ := map_eq_four brief _ _ _ _ _ hc
  exact ⟨u1, u2, u3, u4, c, hlist, h1, h2, h3, h4, fold_start_stop ui id p c u1 u2 u3 u4 habs
    h1 h2 h3 h4⟩

/-- Witness for C9 amended: `start 9002` then `stop 9002`, with identity 2; the
countdown ticks once before the serve loop returns and once before
`RemoveServer`, and the probe fails; the observer model already shows identity 1. -/
theorem start_stop_event_sequence_witness :
    ∃ l tevs,
      execTagged (Listener.init (NewServer 9002 2))
        ([Step.startBegin, Step.schedule] ++ Step.stop ::
          [Step.tick, Step.serveReturn, Step.tick, Step.startFinish, Step.tick, Step.clear,
           Step.probe ProbeOutcome.transportError]) = some (l, tevs) ∧
      ∃ u1 u2 u3 u4, startStopEvents tevs = [u1, u2, u3, u4] ∧
        applyUpdates { serverDetails := [{ ID := 1, Port := 9001, Status := OK }] }
            [u1, u2, u3] =
          some { serverDetails := [{ ID := 1, Port := 9001, Status := OK },
                                   { ID := 2, Port := 9002, Status := DOWN }] } ∧
        applyUpdates { serverDetails := [{ ID := 1, Port := 9001, Status := OK }] }
            [u1, u2, u3, u4] =
          some { serverDetails := [{ ID := 1, Port := 9001, Status := OK }] } := by
  refine ⟨_, _, rfl, ?_⟩
  obtain ⟨u1, u2, u3, u4, _, hlist, _, _, _, _, _, _, h3, h4⟩ :=
    start_stop_event_sequence 9002 2 [Step.startBegin, Step.schedule]
      [Step.tick, Step.serveReturn, Step.tick, Step.startFinish, Step.tick, Step.clear,
       Step.probe ProbeOutcome.transportError] _ _ rfl rfl (by simp) (by decide) (by decide)
      { serverDetails := [{ ID := 1, Port := 9001, Status := OK }] } (by decide)
  exact ⟨u1, u2, u3, u4, hlist, h3, h4⟩

/-! ## Theorems: state at registration and at return -/

/-- The identity of a listener does not change while its goroutines run. -/
theorem exec_ID (steps : List Step) :
    ∀ (l l2 : Listener) (evs : List UIUpdate), exec l steps = some (l2, evs) →
      l2.srv.ID = l.srv.ID := by
  induction steps with
  | nil =>
    intro l l2 evs h
    simp only [exec, Option.some.injEq, Prod.mk.injEq] at h
    rw [h.1]
  | cons st rest ih =>
    intro l l2 evs h
    obtain ⟨l1, e1, e2, hs, he, _⟩ := exec_cons_inv l l2 st rest evs h
    exact (ih l1 l2 e2 he).trans (step_brief l l1 st e1 hs).1

/-- C7 amended: the listener that a successful `SpawnServer` registers under the
returned identity (and under its port in `UsedPorts`) is the value of `NewServer`,
with status `DOWN` and no countdown, at the moment of registration, which precedes
the launch of the goroutine; the call itself sends no event. From then on, the
return of the call included, and until `Start` has returned, a reader of the
registry finds under that identity the state the launched goroutine has brought the
listener to, whatever steps it has taken: `DOWN` as long as `Start` has not run, and
`STARTING` once the first step of `Start` has run, which sends `AddServer` carrying
`STARTING`. -/
theorem spawn_registers_down_then_starting (m : Manager) (_port : Option port)
    (draws : List Nat) (newID : UUID) (r : SpawnResult) (id : UUID)
    (hr : SpawnServer m _port draws newID = some r) (hid : r.id = some id) :
    ∃ p, r.manager.RunningServers id = some (NewServer p id) ∧
      r.manager.UsedPorts p = some id ∧
      (NewServer p id).Status = { Code := DOWN, UntilHealthCheck := none } ∧
      r.events = [] ∧ r.launched = some (NewServer p id) ∧
      (∀ steps l evs, exec (Listener.init (NewServer p id)) steps = some (l, evs) →
        l.start ≠ StartPc.returned → (r.manager.seen l).RunningServers id = some l.srv) ∧
      (r.manager.seen (Listener.init (NewServer p id))).RunningServers id =
        some (NewServer p id) ∧
      ∃ l, step (Listener.init (NewServer p id)) Step.startBegin =
          some (l, [{ Typ := AddServer, ServerID := id, ServerPort := p,
                      ServerStatus := { Code := STARTING, UntilHealthCheck := none } }]) ∧
        ((r.manager.seen l).RunningServers id).map (fun s => s.Status.Code) = some STARTING := by
  simp only [SpawnServer] at hr
  cases hc : choosePort m _port draws with
  | none => rw [hc] at hr; cases hr
  | some p =>
    rw [hc] at hr
    dsimp only at hr
    by_cases hu : (m.UsedPorts p).isSome = true
    · rw [if_pos hu] at hr
      cases hr
      cases hid
    · rw [if_neg hu] at hr
      cases hr
      simp only [NewServer, Option.some.injEq] at hid
      subst hid
      have hreg : (Function.update m.RunningServers newID (some (NewServer p newID))) newID =
          some (NewServer p newID) := by simp
      refine ⟨p, by simp [NewServer], by simp [NewServer], rfl, rfl, rfl, ?_, ?_, ?_⟩
      · intro steps l evs h _
        have hID : l.srv.ID = newID := exec_ID steps _ l evs h
        simp only [Manager.seen, NewServer, hID, if_true]
        simp
      · simp [Manager.seen, Listener.init, NewServer]
      · refine ⟨_, rfl, ?_⟩
        simp [Manager.seen, NewServer, Listener.init]

/-- Witness for C7 amended: `start 9001` on the empty Manager with identity 1; the
registered listener is `DOWN`, and a reader finds `STARTING` once the goroutine has
run the first step of `Start`. -/
theorem spawn_registers_down_then_starting_witness :
    ∃ r, SpawnServer NewManager (some 9001) [] 1 = some r ∧ r.id = some 1 ∧
      ∃ p, r.manager.RunningServers 1 = some (NewServer p 1) ∧
        r.manager.UsedPorts p = some 1 ∧
        (NewServer p 1).Status = { Code := DOWN, UntilHealthCheck := none } ∧
        ∃ l, step (Listener.init (NewServer p 1)) Step.startBegin =
            some (l, [{ Typ := AddServer, ServerID := 1, ServerPort := p,
                        ServerStatus := { Code := STARTING, UntilHealthCheck := none } }]) ∧
          ((r.manager.seen l).RunningServers 1).map (fun s => s.Status.Code) =
            some STARTING := by
  refine ⟨_, rfl, rfl, ?_⟩
  obtain ⟨p, h1, h2, h3, _, _, _, _, h8⟩ :=
    spawn_registers_down_then_starting NewManager (some 9001) [] 1 _ 1 rfl rfl
  exact ⟨p, h1, h2, h3, h8⟩

end ServerFarm
